import Mathlib

/-!
Shallow embedding of `utils/daily.ts` (the daily-content resolution engine).

Conventions of the embedding:
* JavaScript strings are Lean `String`s; the character-level operations
  (trim, whitespace collapse, dash replacement, the `/\s*cusp\s*$/i` and
  `/\bcusp\b/i` regexes, `split`) are implemented structurally on `List Char`,
  following the regex semantics of the source.
* JS `toLowerCase`/`toUpperCase` are embedded as `Char.toLower`/`Char.toUpper`
  mapped over the characters (they agree on the ASCII + dash alphabet the
  engine works with).
* `localStorage` is a `CacheState`: an association list of entries plus an
  availability flag (`typeof window === 'undefined'` / a throwing storage is
  `available = false`; `getFromCache` then misses and `setInCache` is a no-op).
* The Supabase remote store is an external collaborator: a `RemoteEnv` of the
  two query shapes the engine issues (date-scoped list, recency-ordered list),
  each returning rows or an error.  The UTC date-range construction in
  `fetchRowsForDate` is server-side filtering and lives behind this boundary.
* The wall clock / IANA timezone collaborator is a `ClockEnv` providing the
  five day strings `buildDailyAnchors` derives from `Date` and `Intl`.
* `getDailyForecast` is state passing: it returns the resolved record, the
  cache state after the call, and the number of remote queries issued
  (debug logging and the debug-only visibility probe are omitted; with
  debugging off the engine issues exactly one remote query per anchor
  examined plus at most one fallback query).
-/

-- ===========================================================================
-- Character and list helpers (embedding of the JS regex operations)
-- ===========================================================================

/-- JS `String.prototype.trim()` on the character list: drop leading and
trailing whitespace. -/
def jsTrim (l : List Char) : List Char :=
  ((l.dropWhile Char.isWhitespace).reverse.dropWhile Char.isWhitespace).reverse

/-- Worker for `replace(/\s+/g, ' ')`: the flag records whether the previous
character was whitespace (whose run already emitted its single `' '`). -/
def collapseGo : List Char → Bool → List Char
  | [], _ => []
  | c :: cs, prevWS =>
    if Char.isWhitespace c then
      if prevWS then collapseGo cs true else ' ' :: collapseGo cs true
    else c :: collapseGo cs false

/-- JS `replace(/\s+/g, ' ')`: collapse every whitespace run to one space. -/
def collapseWS (l : List Char) : List Char :=
  collapseGo l false

/-- JS `replace(/[–—]/g, '-')` character action: en dash and em dash become a
hyphen, everything else is unchanged. -/
def dashFix (c : Char) : Char :=
  if c = '–' ∨ c = '—' then '-' else c

/-- JS `replace(/\s*cusp\s*$/i, '')` on the reversed character list: drop the
trailing whitespace, require `p`,`s`,`u`,`c` case-insensitively, then drop the
whitespace that preceded the word; if the word is not there the string is
returned unchanged (including its trailing whitespace). -/
def stripCuspRev (r : List Char) : List Char :=
  match r.dropWhile Char.isWhitespace with
  | p :: s :: u :: c :: rest =>
    if p.toLower = 'p' ∧ s.toLower = 's' ∧ u.toLower = 'u' ∧ c.toLower = 'c' then
      rest.dropWhile Char.isWhitespace
    else r
  | _ => r

/-- JS `replace(/\s*cusp\s*$/i, '')`. -/
def stripCuspEnd (l : List Char) : List Char :=
  (stripCuspRev l.reverse).reverse

/-- Lowercase every character (JS `toLowerCase`). -/
def lowerAll (l : List Char) : List Char :=
  l.map Char.toLower

/-- JS `\w`: ASCII letters, digits, underscore. -/
def isWordChar (c : Char) : Bool :=
  c.isAlphanum || c = '_'

/-- Tail test for `/\bcusp\b/i` after a `c` was seen: the next three
characters must be `u`,`s`,`p` case-insensitively and the character after
them (if any) must not be a word character. -/
def matchUSPTail : List Char → Bool
  | u :: s :: p :: rest =>
    u.toLower = 'u' && s.toLower = 's' && p.toLower = 'p' &&
      (match rest with | [] => true | r :: _ => !(isWordChar r))
  | _ => false

/-- JS `/\bcusp\b/i.test`: scan the list remembering the previous character
(for the left word boundary). -/
def hasCuspWord : Option Char → List Char → Bool
  | _, [] => false
  | prev, c :: cs =>
    (c.toLower = 'c' &&
      (match prev with | none => true | some q => !(isWordChar q)) &&
      matchUSPTail cs)
    || hasCuspWord (some c) cs

/-- JS `String.prototype.split(sep)` for a single-character separator,
keeping empty pieces exactly as JS does (`"".split` gives `[""]`). -/
def splitOnChar (sep : Char) : List Char → List (List Char)
  | [] => [[]]
  | c :: cs =>
    if c = sep then [] :: splitOnChar sep cs
    else
      match splitOnChar sep cs with
      | [] => [[c]]
      | w :: rest => (c :: w) :: rest

/-- JS `[...new Set(l)]`: de-duplicate keeping the first occurrence of each
element, preserving order. -/
def dedupFS {α : Type} [DecidableEq α] : List α → List α
  | [] => []
  | x :: xs => x :: (dedupFS xs).filter (fun y => y ≠ x)

/-- JS `toLowerCase` on a whole string. -/
def jsToLower (s : String) : String :=
  String.mk (s.data.map Char.toLower)

/-- JS `toUpperCase` on a whole string. -/
def jsToUpper (s : String) : String :=
  String.mk (s.data.map Char.toUpper)

-- ===========================================================================
-- String helpers of the source (`toTitleCaseWord`, `normalizeSignForDaily`,
-- `rowMatchesSign`)
-- ===========================================================================

/-- Source `toTitleCaseWord`: first character uppercased, the rest
lowercased; the empty word stays empty. -/
def toTitleCaseWord : List Char → List Char
  | [] => []
  | c :: rest => c.toUpper :: rest.map Char.toLower

/-- Source `normalizeSignForDaily` result shape. -/
structure NormalizedSign where
  primaryWithCusp : Option String
  primaryNoCusp : String
  parts : List String
  isCusp : Bool
deriving DecidableEq, Repr

/-- One component of the hyphen-split base:
`part.trim().split(' ').map(toTitleCaseWord).join(' ')`. -/
def processPart (part : List Char) : List Char :=
  List.intercalate [' '] ((splitOnChar ' ' (jsTrim part)).map toTitleCaseWord)

/-- Source `normalizeSignForDaily`. -/
def normalizeSignForDaily (input : String) : NormalizedSign :=
  if input = "" then
    { primaryWithCusp := none, primaryNoCusp := "", parts := [], isCusp := false }
  else
    let s := jsTrim (collapseWS (jsTrim input.data))
    let isCusp := hasCuspWord none s
    let hyphenBase := s.map dashFix
    let noCusp := jsTrim (stripCuspEnd hyphenBase)
    let partsChars := ((splitOnChar '-' noCusp).map processPart).filter (fun p => p ≠ [])
    let baseEnDash := List.intercalate ['–'] partsChars
    { primaryWithCusp :=
        if isCusp then some (String.mk baseEnDash ++ " Cusp") else none
      primaryNoCusp := String.mk baseEnDash
      parts := partsChars.map String.mk
      isCusp := isCusp }

/-- The normal form `norm` inside source `rowMatchesSign`:
trim, collapse whitespace, dashes to hyphen, strip a trailing cusp,
lowercase. -/
def normSign (s : String) : List Char :=
  lowerAll (stripCuspEnd ((collapseWS (jsTrim s.data)).map dashFix))

/-- Source `rowMatchesSign` (the spec's `labelsEquivalent`): guard against
falsy (empty) inputs, then compare normal forms. -/
def rowMatchesSign (dbSign attempt : String) : Bool :=
  if dbSign = "" ∨ attempt = "" then false
  else decide (normSign dbSign = normSign attempt)

-- ===========================================================================
-- Hemisphere helpers
-- ===========================================================================

/-- Source `buildHemisphereVariants`. -/
def buildHemisphereVariants (hemi : String) : List String :=
  dedupFS [hemi, jsToUpper hemi, jsToLower hemi,
    if hemi = "Southern" then "SH" else "NH"]

/-- Source `hemiToDB`: `(hemi || 'Southern').toString().toLowerCase()`;
a missing or falsy (empty) argument defaults to `"Southern"`. -/
def hemiToDB (hemi : Option String) : String :=
  let v := jsToLower (match hemi with
    | none => "Southern"
    | some s => if s = "" then "Southern" else s)
  if v = "northern" ∨ v = "nh" then "Northern" else "Southern"

-- ===========================================================================
-- Date anchors (`buildDailyAnchors` over the clock/timezone collaborator)
-- ===========================================================================

/-- The clock / timezone collaborator: the five `YYYY-MM-DD` strings the
source derives from `new Date()`, `Intl` and the device clock.  `todayUser`,
`yesterdayUser`, `tomorrowUser` are `ymdInTZ` of now, now−24h, now+24h in the
user's timezone; `todayUTC` is `anchorUTC`; `todayLocal` is `anchorLocal`. -/
structure ClockEnv where
  todayUser : String
  yesterdayUser : String
  tomorrowUser : String
  todayUTC : String
  todayLocal : String
deriving DecidableEq, Repr

/-- Source `buildDailyAnchors`: the five candidates in priority order,
de-duplicated first-seen (`new Set`), then `.filter(Boolean)`. -/
def buildDailyAnchors (c : ClockEnv) : List String :=
  (dedupFS [c.todayUser, c.todayUTC, c.todayLocal, c.yesterdayUser, c.tomorrowUser]).filter
    (fun a => a ≠ "")

-- ===========================================================================
-- Data model, cache store
-- ===========================================================================

/-- Source `DailyRow`.  The three content columns are optional in the store
(`Option String`, `none` = SQL `NULL`/absent); `source_table` models the
`__source_table__` provenance tag. -/
structure DailyRow where
  sign : String
  hemisphere : String
  date : String
  daily_horoscope : Option String := none
  affirmation : Option String := none
  deeper_insight : Option String := none
  source_table : Option String := none
deriving DecidableEq, Repr

/-- The browser-local storage: association list plus availability
(`available = false` models `typeof window === 'undefined'` or a throwing
storage, in which case reads miss and writes are no-ops). -/
structure CacheState where
  available : Bool
  entries : List (String × DailyRow)
deriving DecidableEq, Repr

/-- Association-list lookup (first entry with the key wins, as in a map). -/
def lookupEntries : List (String × DailyRow) → String → Option DailyRow
  | [], _ => none
  | (k, v) :: rest, key => if k = key then some v else lookupEntries rest key

/-- Association-list update (`localStorage.setItem` overwrites). -/
def setEntries : List (String × DailyRow) → String → DailyRow → List (String × DailyRow)
  | [], key, v => [(key, v)]
  | (k0, v0) :: rest, key, v =>
    if k0 = key then (key, v) :: rest else (k0, v0) :: setEntries rest key v

/-- Source `cacheKeyDaily`: `daily:${userId ?? 'anon'}:${sign}:${hemi}:${ymd}`
(nullish coalescing: an empty-string user id is kept). -/
def cacheKeyDaily (userId : Option String) (sign hemi ymd : String) : String :=
  "daily:" ++ userId.getD "anon" ++ ":" ++ sign ++ ":" ++ hemi ++ ":" ++ ymd

/-- Source `getFromCache`: absent storage or any failure is a miss. -/
def getFromCache (st : CacheState) (key : String) : Option DailyRow :=
  if st.available then lookupEntries st.entries key else none

/-- Source `setInCache`: absent storage or any failure is a silent no-op. -/
def setInCache (key : String) (v : DailyRow) (st : CacheState) : CacheState :=
  if st.available then { st with entries := setEntries st.entries key v } else st

-- ===========================================================================
-- Sign attempts
-- ===========================================================================

/-- Replace only en dashes by hyphens (`replace(/–/g, '-')` in
`buildSignAttemptsForDaily`). -/
def enDashToHyphen (s : String) : String :=
  String.mk (s.data.map (fun c => if c = '–' then '-' else c))

/-- Source `buildSignAttemptsForDaily`: cusp-first attempt order; each push
is guarded by the truthiness of the pushed base string; the per-sign
fallback components are added when the label is not a cusp label or the
fallback flag is set; finally de-duplicate and drop falsy entries. -/
def buildSignAttemptsForDaily (inputLabel : String)
    (allowTrueSignFallback : Option Bool) : List String :=
  let n := normalizeSignForDaily inputLabel
  let allowFallback := allowTrueSignFallback.getD false
  let l1 : List String :=
    match n.primaryWithCusp with
    | some p => if p = "" then [] else [p, enDashToHyphen p]
    | none => []
  let l2 : List String :=
    if n.primaryNoCusp = "" then [] else [n.primaryNoCusp, enDashToHyphen n.primaryNoCusp]
  let l3 : List String :=
    if !n.isCusp || allowFallback then n.parts.filter (fun p => p ≠ "") else []
  (dedupFS (l1 ++ l2 ++ l3)).filter (fun s => s ≠ "")

-- ===========================================================================
-- Remote store collaborator and DB fetchers
-- ===========================================================================

/-- The two query shapes the engine issues against the remote store.
`listByDate date hemiVariants` is the `horoscope_cache` select filtered by
the `[date, date+1)` UTC range and `hemisphere in hemiVariants`;
`listLatest hemiVariants` is the recency-ordered, limit-200 select.  Either
may fail (`Except.error`). -/
structure RemoteEnv where
  listByDate : String → List String → Except Unit (List DailyRow)
  listLatest : List String → Except Unit (List DailyRow)

/-- The row mapping used by both remote stages: coerce the content fields
with `|| ''` and stamp the source tag. -/
def cleanRow (r : DailyRow) : DailyRow :=
  { sign := r.sign
    hemisphere := r.hemisphere
    date := r.date
    daily_horoscope := some (r.daily_horoscope.getD "")
    affirmation := some (r.affirmation.getD "")
    deeper_insight := some (r.deeper_insight.getD "")
    source_table := some "horoscope_cache" }

/-- Source `fetchRowsForDate` (debug probe omitted): on error return
`([], error)`, otherwise map the raw rows. -/
def fetchRowsForDate (env : RemoteEnv) (hemi dateStr : String) :
    List DailyRow × Bool :=
  match env.listByDate dateStr (buildHemisphereVariants hemi) with
  | Except.error _ => ([], true)
  | Except.ok data => (data.map cleanRow, false)

/-- The in-memory sign match of stage 2: for each attempt in order, the
first row whose sign matches. -/
def findDateHit (rows : List DailyRow) : List String → Option (String × DailyRow)
  | [] => none
  | cand :: rest =>
    match rows.find? (fun r => rowMatchesSign r.sign cand) with
    | some hit => some (cand, hit)
    | none => findDateHit rows rest

/-- Stage 2 of `getDailyForecast`: walk the anchors in order, one remote
query per anchor; a query error or an empty/unmatched row list advances to
the next anchor.  Returns the hit as (anchor, matched attempt, cleaned row)
together with the number of remote queries issued. -/
def stage2Find (env : RemoteEnv) (hemi : String) (attempts : List String) :
    List String → Option (String × String × DailyRow) × Nat
  | [] => (none, 0)
  | d :: rest =>
    let fr := fetchRowsForDate env hemi d
    if fr.2 || fr.1.isEmpty then
      ((stage2Find env hemi attempts rest).1, (stage2Find env hemi attempts rest).2 + 1)
    else
      match findDateHit fr.1 attempts with
      | some (cand, hit) => (some (d, cand, cleanRow hit), 1)
      | none =>
        ((stage2Find env hemi attempts rest).1, (stage2Find env hemi attempts rest).2 + 1)

/-- The attempt loop of `fetchLatestForSignAndHemi`. -/
def findLatestMatch (data : List DailyRow) : List String → Option DailyRow
  | [] => none
  | cand :: rest =>
    match data.find? (fun r => rowMatchesSign r.sign cand) with
    | some m => some (cleanRow m)
    | none => findLatestMatch data rest

/-- Source `fetchLatestForSignAndHemi`: error or empty data gives `null`;
otherwise the first attempt with a matching row wins and the row is mapped
(not cached by the caller). -/
def fetchLatestForSignAndHemi (env : RemoteEnv) (hemi : String)
    (signAttempts : List String) : Option DailyRow :=
  match env.listLatest (buildHemisphereVariants hemi) with
  | Except.error _ => none
  | Except.ok data => if data.isEmpty then none else findLatestMatch data signAttempts

-- ===========================================================================
-- Public API: `getDailyForecast`
-- ===========================================================================

/-- The options object of `getDailyForecast` (`debug` omitted: it only
controls logging and a logging-only probe). -/
structure DailyOpts where
  userId : Option String := none
  forceDate : Option String := none
  useCache : Option Bool := none
  allowTrueSignFallback : Option Bool := none
deriving DecidableEq, Repr

/-- The anchor list the resolver uses:
`opts?.forceDate ? [opts?.forceDate] : buildDailyAnchors(today)` —
note the truthiness test, under which an empty-string override is ignored. -/
def anchorsFor (opts : DailyOpts) (clock : ClockEnv) : List String :=
  match opts.forceDate with
  | some f => if f = "" then buildDailyAnchors clock else [f]
  | none => buildDailyAnchors clock

/-- The attempt list the resolver uses. -/
def attemptsFor (signIn : String) (opts : DailyOpts) : List String :=
  buildSignAttemptsForDaily signIn opts.allowTrueSignFallback

/-- The cache well-formedness test of the stage-1 pass:
`cached && cached.date && cached.hemisphere && cached.sign`. -/
def wellFormedCached (c : DailyRow) : Bool :=
  !(c.date = "") && !(c.hemisphere = "") && !(c.sign = "")

/-- Inner loop of the cache-first pass: attempts for one anchor. -/
def cacheFindAttempts (st : CacheState) (userId : Option String)
    (hemi dateStr : String) : List String → Option DailyRow
  | [] => none
  | s :: rest =>
    match getFromCache st (cacheKeyDaily userId s hemi dateStr) with
    | some c =>
      if wellFormedCached c then some c
      else cacheFindAttempts st userId hemi dateStr rest
    | none => cacheFindAttempts st userId hemi dateStr rest

/-- Outer loop of the cache-first pass: anchors outer, attempts inner. -/
def cacheFindAnchors (st : CacheState) (userId : Option String) (hemi : String)
    (attempts : List String) : List String → Option DailyRow
  | [] => none
  | d :: rest =>
    match cacheFindAttempts st userId hemi d attempts with
    | some c => some c
    | none => cacheFindAnchors st userId hemi attempts rest

/-- Stage 1 of the resolver: the cache pass runs unless `useCache === false`. -/
def stage1Result (opts : DailyOpts) (hemi : String) (attempts anchors : List String)
    (cache0 : CacheState) : Option DailyRow :=
  if opts.useCache = some false then none
  else cacheFindAnchors cache0 opts.userId hemi attempts anchors

/-- What one call to the resolver produces: the record (or absence), the
cache state afterwards, and how many remote queries were issued. -/
structure ResolveResult where
  result : Option DailyRow
  cache : CacheState
  remoteCalls : Nat
deriving DecidableEq, Repr

/-- Source `getDailyForecast`: staged resolution.  Stage 1 (cache) returns
without remote traffic; stage 2 (date-scoped remote, anchor outer / attempt
inner) caches its hit under the matched attempt and anchor; stage 3 (latest
fallback) does not touch the cache; total failure returns `none`. -/
def getDailyForecast (signIn hemisphereIn : String) (opts : DailyOpts)
    (clock : ClockEnv) (env : RemoteEnv) (cache0 : CacheState) : ResolveResult :=
  let hemi := hemiToDB (some hemisphereIn)
  let anchors := anchorsFor opts clock
  let attempts := attemptsFor signIn opts
  match stage1Result opts hemi attempts anchors cache0 with
  | some c => { result := some c, cache := cache0, remoteCalls := 0 }
  | none =>
    match (stage2Find env hemi attempts anchors).1 with
    | some (d, cand, clean) =>
      { result := some clean
        cache := setInCache (cacheKeyDaily opts.userId cand hemi d) clean cache0
        remoteCalls := (stage2Find env hemi attempts anchors).2 }
    | none =>
      match fetchLatestForSignAndHemi env hemi attempts with
      | some latest =>
        { result := some latest, cache := cache0,
          remoteCalls := (stage2Find env hemi attempts anchors).2 + 1 }
      | none =>
        { result := none, cache := cache0,
          remoteCalls := (stage2Find env hemi attempts anchors).2 + 1 }

-- ===========================================================================
-- Generic helper lemmas
-- ===========================================================================

theorem dedupFS_sublist {α : Type} [DecidableEq α] (l : List α) : List.Sublist (dedupFS l) l := by
  induction l with
  | nil => simp [dedupFS]
  | cons x xs ih =>
    simp only [dedupFS]
    exact ((List.filter_sublist _).trans ih).cons₂ x

theorem mem_dedupFS {α : Type} [DecidableEq α] {a : α} {l : List α} :
    a ∈ dedupFS l ↔ a ∈ l := by
  induction l with
  | nil => simp [dedupFS]
  | cons x xs ih =>
    by_cases hax : a = x
    · subst hax; simp [dedupFS]
    · simp [dedupFS, List.mem_filter, hax, ih]

theorem dedupFS_nodup {α : Type} [DecidableEq α] (l : List α) : (dedupFS l).Nodup := by
  induction l with
  | nil => simp [dedupFS]
  | cons x xs ih =>
    simp only [dedupFS, List.nodup_cons]
    refine ⟨fun hmem => ?_, ih.filter _⟩
    rw [List.mem_filter] at hmem
    simp at hmem

theorem two_le_length_of_mem {α : Type} {l : List α} {a b : α}
    (ha : a ∈ l) (hb : b ∈ l) (hab : a ≠ b) : 2 ≤ l.length := by
  cases l with
  | nil => cases ha
  | cons x xs =>
    rcases List.mem_cons.mp ha with rfl | ha'
    · have hb' : b ∈ xs := by
        rcases List.mem_cons.mp hb with rfl | hb'
        · exact absurd rfl hab
        · exact hb'
      have := List.length_pos.mpr (List.ne_nil_of_mem hb')
      simp only [List.length_cons]
      omega
    · have := List.length_pos.mpr (List.ne_nil_of_mem ha')
      simp only [List.length_cons]
      omega

theorem three_le_length_of_mem {α : Type} {l : List α} {a b c : α}
    (ha : a ∈ l) (hb : b ∈ l) (hc : c ∈ l)
    (hab : a ≠ b) (hac : a ≠ c) (hbc : b ≠ c) : 3 ≤ l.length := by
  cases l with
  | nil => cases ha
  | cons x xs =>
    simp only [List.length_cons]
    rcases List.mem_cons.mp ha with rfl | ha'
    · have hb' : b ∈ xs := by
        rcases List.mem_cons.mp hb with rfl | hb'
        · exact absurd rfl hab
        · exact hb'
      have hc' : c ∈ xs := by
        rcases List.mem_cons.mp hc with rfl | hc'
        · exact absurd rfl hac
        · exact hc'
      have := two_le_length_of_mem hb' hc' hbc
      omega
    · rcases List.mem_cons.mp hb with rfl | hb'
      · have hc' : c ∈ xs := by
          rcases List.mem_cons.mp hc with rfl | hc'
          · exact absurd rfl hbc
          · exact hc'
        have := two_le_length_of_mem ha' hc' hac
        omega
      · have := two_le_length_of_mem ha' hb' hab
        omega

-- ===========================================================================
-- C8: region normalizer totality and canonical values
-- ===========================================================================

/-- C8: `hemiToDB` always returns one of exactly the two canonical region
values and never fails: a missing argument gives `"Southern"`; any spelling
whose lowercase form is `"northern"` or `"nh"` gives `"Northern"`; every
other input (including the empty string) gives `"Southern"`. -/
theorem hemiToDB_total_and_canonical :
    (∀ h : Option String, hemiToDB h = "Northern" ∨ hemiToDB h = "Southern")
    ∧ hemiToDB none = "Southern"
    ∧ (∀ s : String, jsToLower s = "northern" ∨ jsToLower s = "nh" →
        hemiToDB (some s) = "Northern")
    ∧ (∀ s : String, ¬(jsToLower s = "northern" ∨ jsToLower s = "nh") →
        hemiToDB (some s) = "Southern") := by
  have key : ∀ s : String, hemiToDB (some s) =
      if jsToLower (if s = "" then "Southern" else s) = "northern" ∨
         jsToLower (if s = "" then "Southern" else s) = "nh"
      then "Northern" else "Southern" := fun s => rfl
  refine ⟨fun h => ?_, by decide, fun s hs => ?_, fun s hs => ?_⟩
  · cases h with
    | none => exact Or.inr (by decide)
    | some s =>
      rw [key]
      by_cases hse : s = ""
      · rw [if_pos hse]
        exact Or.inr (by decide)
      · rw [if_neg hse]
        by_cases hn : jsToLower s = "northern" ∨ jsToLower s = "nh"
        · rw [if_pos hn]
          exact Or.inl rfl
        · rw [if_neg hn]
          exact Or.inr rfl
  · by_cases hse : s = ""
    · subst hse
      exact absurd hs (by decide)
    · rw [key, if_neg hse, if_pos hs]
  · by_cases hse : s = ""
    · subst hse
      decide
    · rw [key, if_neg hse, if_neg hs]

/-- Concrete instances of `hemiToDB_total_and_canonical`. -/
theorem hemiToDB_total_and_canonical_witness :
    hemiToDB (some "NH") = "Northern" ∧ hemiToDB (some "SOUTHERN") = "Southern"
    ∧ hemiToDB (some "unknown") = "Southern" ∧ hemiToDB none = "Southern" :=
  ⟨hemiToDB_total_and_canonical.2.2.1 "NH" (Or.inr (by decide)),
   hemiToDB_total_and_canonical.2.2.2 "SOUTHERN" (by decide),
   hemiToDB_total_and_canonical.2.2.2 "unknown" (by decide),
   hemiToDB_total_and_canonical.2.1⟩

-- ===========================================================================
-- C5: anchor override
-- ===========================================================================

/-- C5 counterexample: the override is tested for truthiness
(`opts?.forceDate ? [opts?.forceDate] : ...`), so supplying the empty-string
day override does not bypass the timezone anchors: the anchor list is the
timezone-derived one, not `[""]`. -/
theorem anchorsFor_empty_override_not_single :
    anchorsFor { forceDate := some "" }
        ⟨"2024-01-02", "2024-01-01", "2024-01-03", "2024-01-01", "2024-01-02"⟩ ≠ [""]
    ∧ anchorsFor { forceDate := some "" }
        ⟨"2024-01-02", "2024-01-01", "2024-01-03", "2024-01-01", "2024-01-02"⟩
      = ["2024-01-02", "2024-01-01", "2024-01-03"] := by
  constructor
  · decide
  · decide

/-- C5 (amended): for every nonempty supplied day override and every
clock/timezone state, the anchor list used by the resolver is exactly the
single-element list containing that override. -/
theorem anchorsFor_override_singleton (d : String) (hd : d ≠ "")
    (opts : DailyOpts) (clock : ClockEnv) (h : opts.forceDate = some d) :
    anchorsFor opts clock = [d] := by
  simp [anchorsFor, h, hd]

/-- Concrete instance of `anchorsFor_override_singleton`. -/
theorem anchorsFor_override_singleton_witness :
    anchorsFor { forceDate := some "2024-06-15" }
        ⟨"2024-01-02", "2024-01-01", "2024-01-03", "2024-01-01", "2024-01-02"⟩
      = ["2024-06-15"] :=
  anchorsFor_override_singleton "2024-06-15" (by decide) _ _ rfl

-- ===========================================================================
-- C4: anchors without override
-- ===========================================================================

/-- C4: on every clock state in which the three user-timezone day strings
are nonempty and pairwise distinct (as today, yesterday and tomorrow of a
real calendar always are), `buildDailyAnchors` starts with the user-timezone
today, is a de-duplicated first-seen-order selection from the five
candidates in priority order (a sublist of that priority list, without
duplicates), and has between 3 and 5 elements. -/
theorem buildDailyAnchors_shape (c : ClockEnv)
    (h1 : c.todayUser ≠ "") (h2 : c.yesterdayUser ≠ "") (h3 : c.tomorrowUser ≠ "")
    (h4 : c.todayUser ≠ c.yesterdayUser) (h5 : c.todayUser ≠ c.tomorrowUser)
    (h6 : c.yesterdayUser ≠ c.tomorrowUser) :
    (buildDailyAnchors c).head? = some c.todayUser
    ∧ List.Sublist (buildDailyAnchors c)
        [c.todayUser, c.todayUTC, c.todayLocal, c.yesterdayUser, c.tomorrowUser]
    ∧ (buildDailyAnchors c).Nodup
    ∧ 3 ≤ (buildDailyAnchors c).length ∧ (buildDailyAnchors c).length ≤ 5 := by
  have hsub : List.Sublist (buildDailyAnchors c)
      [c.todayUser, c.todayUTC, c.todayLocal, c.yesterdayUser, c.tomorrowUser] :=
    (List.filter_sublist _).trans (dedupFS_sublist _)
  have hmem : ∀ a : String, a ≠ "" →
      a ∈ [c.todayUser, c.todayUTC, c.todayLocal, c.yesterdayUser, c.tomorrowUser] →
      a ∈ buildDailyAnchors c := by
    intro a ha hin
    unfold buildDailyAnchors
    rw [List.mem_filter]
    exact ⟨mem_dedupFS.mpr hin, by simpa using ha⟩
  refine ⟨?_, hsub, (dedupFS_nodup _).filter _, ?_, ?_⟩
  · show (List.filter _ (dedupFS _)).head? = _
    rw [show dedupFS [c.todayUser, c.todayUTC, c.todayLocal, c.yesterdayUser, c.tomorrowUser]
        = c.todayUser :: (dedupFS [c.todayUTC, c.todayLocal, c.yesterdayUser,
            c.tomorrowUser]).filter (fun y => y ≠ c.todayUser) from rfl]
    rw [List.filter_cons_of_pos (by simpa using h1)]
    rfl
  · exact three_le_length_of_mem
      (hmem c.todayUser h1 (by simp)) (hmem c.yesterdayUser h2 (by simp))
      (hmem c.tomorrowUser h3 (by simp)) h4 h5 h6
  · simpa using hsub.length_le

/-- Concrete instance of `buildDailyAnchors_shape`. -/
theorem buildDailyAnchors_shape_witness :
    (buildDailyAnchors ⟨"2024-01-02", "2024-01-01", "2024-01-03", "2024-01-01",
        "2024-01-02"⟩).head? = some "2024-01-02"
    ∧ 3 ≤ (buildDailyAnchors ⟨"2024-01-02", "2024-01-01", "2024-01-03", "2024-01-01",
        "2024-01-02"⟩).length := by
  have h := buildDailyAnchors_shape
    ⟨"2024-01-02", "2024-01-01", "2024-01-03", "2024-01-01", "2024-01-02"⟩
    (by decide) (by decide) (by decide) (by decide) (by decide) (by decide)
  exact ⟨h.1, h.2.2.2.1⟩

-- ===========================================================================
-- C10: component attempts for non-cusp labels
-- ===========================================================================

/-- C10: when the normalizer detects no cusp marker in the label, the
attempt list contains every individual component of the label whatever the
allow-component-fallback flag is, and is in fact entirely independent of
that flag (the flag only restricts component attempts for cusp labels). -/
theorem buildSignAttempts_noncusp (label : String)
    (h : (normalizeSignForDaily label).isCusp = false) :
    (∀ (flag : Option Bool), ∀ p ∈ (normalizeSignForDaily label).parts,
        p ∈ buildSignAttemptsForDaily label flag)
    ∧ ∀ f₁ f₂ : Option Bool,
        buildSignAttemptsForDaily label f₁ = buildSignAttemptsForDaily label f₂ := by
  have hne : ∀ p ∈ (normalizeSignForDaily label).parts, p ≠ "" := by
    by_cases hl : label = ""
    · subst hl
      intro p hp
      simp [normalizeSignForDaily] at hp
    · intro p hp
      simp only [normalizeSignForDaily, if_neg hl] at hp
      obtain ⟨w, hw, rfl⟩ := List.mem_map.mp hp
      rw [List.mem_filter] at hw
      have hwne : w ≠ [] := by simpa using hw.2
      intro hc
      exact hwne (congrArg String.data hc)
  constructor
  · intro flag p hp
    simp only [buildSignAttemptsForDaily, h, Bool.not_false, Bool.true_or, if_true]
    rw [List.mem_filter]
    constructor
    · rw [mem_dedupFS]
      refine List.mem_append_right _ ?_
      rw [List.mem_filter]
      exact ⟨hp, by simpa using hne p hp⟩
    · simpa using hne p hp
  · intro f₁ f₂
    simp only [buildSignAttemptsForDaily, h, Bool.not_false, Bool.true_or, if_true]

/-- Concrete instance of `buildSignAttempts_noncusp`: both components of a
non-cusp compound label are attempted even with the fallback flag off. -/
theorem buildSignAttempts_noncusp_witness :
    "Gemini" ∈ buildSignAttemptsForDaily "Gemini-Cancer" (some false)
    ∧ "Cancer" ∈ buildSignAttemptsForDaily "Gemini-Cancer" (some false) := by
  have h := buildSignAttempts_noncusp "Gemini-Cancer" (by decide)
  exact ⟨h.1 (some false) "Gemini" (by decide), h.1 (some false) "Cancer" (by decide)⟩

-- ===========================================================================
-- Lemmas about the staged lookups
-- ===========================================================================

theorem getFromCache_empty (avail : Bool) (k : String) :
    getFromCache ⟨avail, []⟩ k = none := by
  unfold getFromCache
  split
  · rfl
  · rfl

theorem cacheFindAttempts_empty (avail : Bool) (userId : Option String)
    (hemi dateStr : String) (attempts : List String) :
    cacheFindAttempts ⟨avail, []⟩ userId hemi dateStr attempts = none := by
  induction attempts with
  | nil => rfl
  | cons s rest ih =>
    simp only [cacheFindAttempts, getFromCache_empty]
    exact ih

theorem cacheFindAnchors_empty (avail : Bool) (userId : Option String)
    (hemi : String) (attempts anchors : List String) :
    cacheFindAnchors ⟨avail, []⟩ userId hemi attempts anchors = none := by
  induction anchors with
  | nil => rfl
  | cons d rest ih =>
    simp only [cacheFindAnchors, cacheFindAttempts_empty]
    exact ih

theorem stage2Find_cons_skip (env : RemoteEnv) (hemi : String)
    (attempts : List String) (d : String) (rest : List String)
    (herr : env.listByDate d (buildHemisphereVariants hemi) = Except.error ()) :
    stage2Find env hemi attempts (d :: rest)
      = ((stage2Find env hemi attempts rest).1,
         (stage2Find env hemi attempts rest).2 + 1) := by
  simp [stage2Find, fetchRowsForDate, herr]

theorem stage2Find_none_of_all_error (env : RemoteEnv) (hemi : String)
    (attempts anchors : List String)
    (herr : ∀ d hv, env.listByDate d hv = Except.error ()) :
    (stage2Find env hemi attempts anchors).1 = none := by
  induction anchors with
  | nil => rfl
  | cons d rest ih =>
    rw [stage2Find_cons_skip env hemi attempts d rest (herr d _)]
    exact ih

-- ===========================================================================
-- C2: total remote failure yields absence, not an error
-- ===========================================================================

/-- C2: when the date-scoped remote query fails for every day anchor and the
recency fallback query fails as well, the resolver (started on a cache with
no entries, so that the remote stages are reached) returns absence rather
than propagating an error — the embedding is a total function, so no
exception can escape; moreover a single anchor's query error merely advances
the stage-2 walk to the next anchor. -/
theorem resolve_absent_on_total_remote_failure
    (signIn hemisphereIn : String) (opts : DailyOpts) (clock : ClockEnv)
    (env : RemoteEnv) (avail : Bool)
    (herr1 : ∀ d hv, env.listByDate d hv = Except.error ())
    (herr2 : ∀ hv, env.listLatest hv = Except.error ()) :
    (getDailyForecast signIn hemisphereIn opts clock env ⟨avail, []⟩).result = none
    ∧ ∀ (env2 : RemoteEnv) (hemi d : String) (attempts rest : List String),
        env2.listByDate d (buildHemisphereVariants hemi) = Except.error () →
        stage2Find env2 hemi attempts (d :: rest)
          = ((stage2Find env2 hemi attempts rest).1,
             (stage2Find env2 hemi attempts rest).2 + 1) := by
  constructor
  · have h1 : stage1Result opts (hemiToDB (some hemisphereIn))
        (attemptsFor signIn opts) (anchorsFor opts clock) ⟨avail, []⟩ = none := by
      unfold stage1Result
      split
      · rfl
      · exact cacheFindAnchors_empty _ _ _ _ _
    have h2 : (stage2Find env (hemiToDB (some hemisphereIn)) (attemptsFor signIn opts)
        (anchorsFor opts clock)).1 = none :=
      stage2Find_none_of_all_error _ _ _ _ herr1
    have h3 : fetchLatestForSignAndHemi env (hemiToDB (some hemisphereIn))
        (attemptsFor signIn opts) = none := by
      unfold fetchLatestForSignAndHemi
      rw [herr2]
    simp only [getDailyForecast]
    rw [h1, h2, h3]
  · intro env2 hemi d attempts rest herr
    exact stage2Find_cons_skip env2 hemi attempts d rest herr

/-- Concrete instance of `resolve_absent_on_total_remote_failure`. -/
theorem resolve_absent_on_total_remote_failure_witness :
    (getDailyForecast "Aries" "Northern" {} ⟨"2024-01-01", "2023-12-31", "2024-01-02",
        "2024-01-01", "2024-01-01"⟩
      { listByDate := fun _ _ => Except.error (), listLatest := fun _ => Except.error () }
      ⟨true, []⟩).result = none :=
  (resolve_absent_on_total_remote_failure "Aries" "Northern" {} _ _ true
    (fun _ _ => rfl) (fun _ => rfl)).1

-- ===========================================================================
-- C7: the stage-3 fallback does not write to the cache
-- ===========================================================================

/-- C7: when resolution succeeds only through the recency fallback (the
cache pass and every date-scoped anchor produced nothing), the returned
record is the fallback match and the cache state after the call is exactly
the cache state before it. -/
theorem resolve_stage3_leaves_cache
    (signIn hemisphereIn : String) (opts : DailyOpts) (clock : ClockEnv)
    (env : RemoteEnv) (cache0 : CacheState) (r : DailyRow)
    (h1 : stage1Result opts (hemiToDB (some hemisphereIn)) (attemptsFor signIn opts)
        (anchorsFor opts clock) cache0 = none)
    (h2 : (stage2Find env (hemiToDB (some hemisphereIn)) (attemptsFor signIn opts)
        (anchorsFor opts clock)).1 = none)
    (h3 : fetchLatestForSignAndHemi env (hemiToDB (some hemisphereIn))
        (attemptsFor signIn opts) = some r) :
    (getDailyForecast signIn hemisphereIn opts clock env cache0).result = some r
    ∧ (getDailyForecast signIn hemisphereIn opts clock env cache0).cache = cache0 := by
  simp only [getDailyForecast]
  rw [h1, h2, h3]
  exact ⟨rfl, rfl⟩

/-- Concrete instance of `resolve_stage3_leaves_cache`: an older row for the
same subject is returned via the fallback and the cache stays empty. -/
theorem resolve_stage3_leaves_cache_witness :
    (getDailyForecast "Aries" "Southern" { forceDate := some "2024-01-05" }
        ⟨"2024-01-05", "2024-01-04", "2024-01-06", "2024-01-05", "2024-01-05"⟩
        { listByDate := fun _ _ => Except.ok []
          listLatest := fun _ => Except.ok
            [{ sign := "Aries", hemisphere := "Southern", date := "2023-12-01",
               daily_horoscope := some "old text" }] }
        ⟨true, []⟩).result
      = some { sign := "Aries", hemisphere := "Southern", date := "2023-12-01",
               daily_horoscope := some "old text", affirmation := some "",
               deeper_insight := some "", source_table := some "horoscope_cache" }
    ∧ (getDailyForecast "Aries" "Southern" { forceDate := some "2024-01-05" }
        ⟨"2024-01-05", "2024-01-04", "2024-01-06", "2024-01-05", "2024-01-05"⟩
        { listByDate := fun _ _ => Except.ok []
          listLatest := fun _ => Except.ok
            [{ sign := "Aries", hemisphere := "Southern", date := "2023-12-01",
               daily_horoscope := some "old text" }] }
        ⟨true, []⟩).cache = ⟨true, []⟩ :=
  resolve_stage3_leaves_cache "Aries" "Southern" _ _ _ _ _
    (by decide) (by decide) (by decide)

-- ===========================================================================
-- C9: the stage-2 cache write ignores the useCache option
-- ===========================================================================

/-- C9: the cache-enabled option guards only the stage-1 read pass; a
stage-2 date-scoped match is written into the cache under the matched
attempt and anchor even when the caller passed `useCache = false`. -/
theorem resolve_stage2_writes_despite_no_useCache
    (signIn hemisphereIn : String) (opts : DailyOpts) (clock : ClockEnv)
    (env : RemoteEnv) (cache0 : CacheState) (d cand : String) (clean : DailyRow)
    (huse : opts.useCache = some false)
    (h2 : (stage2Find env (hemiToDB (some hemisphereIn)) (attemptsFor signIn opts)
        (anchorsFor opts clock)).1 = some (d, cand, clean)) :
    (getDailyForecast signIn hemisphereIn opts clock env cache0).result = some clean
    ∧ (getDailyForecast signIn hemisphereIn opts clock env cache0).cache
      = setInCache (cacheKeyDaily opts.userId cand (hemiToDB (some hemisphereIn)) d)
          clean cache0 := by
  have h1 : stage1Result opts (hemiToDB (some hemisphereIn)) (attemptsFor signIn opts)
      (anchorsFor opts clock) cache0 = none := by
    unfold stage1Result
    rw [if_pos huse]
  simp only [getDailyForecast]
  rw [h1, h2]
  exact ⟨rfl, rfl⟩

/-- Concrete instance of `resolve_stage2_writes_despite_no_useCache`: with
`useCache = false` the stage-2 hit still lands in the cache. -/
theorem resolve_stage2_writes_despite_no_useCache_witness :
    (getDailyForecast "Aries" "Southern"
        { forceDate := some "2024-01-05", useCache := some false }
        ⟨"2024-01-05", "2024-01-04", "2024-01-06", "2024-01-05", "2024-01-05"⟩
        { listByDate := fun _ _ => Except.ok
            [{ sign := "Aries", hemisphere := "Southern", date := "2024-01-05",
               daily_horoscope := some "fresh" }]
          listLatest := fun _ => Except.ok [] }
        ⟨true, []⟩).result
      = some { sign := "Aries", hemisphere := "Southern", date := "2024-01-05",
               daily_horoscope := some "fresh", affirmation := some "",
               deeper_insight := some "", source_table := some "horoscope_cache" }
    ∧ (getDailyForecast "Aries" "Southern"
        { forceDate := some "2024-01-05", useCache := some false }
        ⟨"2024-01-05", "2024-01-04", "2024-01-06", "2024-01-05", "2024-01-05"⟩
        { listByDate := fun _ _ => Except.ok
            [{ sign := "Aries", hemisphere := "Southern", date := "2024-01-05",
               daily_horoscope := some "fresh" }]
          listLatest := fun _ => Except.ok [] }
        ⟨true, []⟩).cache
      = setInCache (cacheKeyDaily none "Aries" "Southern" "2024-01-05")
          { sign := "Aries", hemisphere := "Southern", date := "2024-01-05",
            daily_horoscope := some "fresh", affirmation := some "",
            deeper_insight := some "", source_table := some "horoscope_cache" }
          ⟨true, []⟩ :=
  resolve_stage2_writes_despite_no_useCache "Aries" "Southern"
    { forceDate := some "2024-01-05", useCache := some false } _ _ _
    "2024-01-05" "Aries" _ rfl (by decide)

-- ===========================================================================
-- Provenance lemmas: where each stage's record comes from
-- ===========================================================================

theorem lookupEntries_mem {es : List (String × DailyRow)} {k : String} {v : DailyRow}
    (h : lookupEntries es k = some v) : (k, v) ∈ es := by
  induction es with
  | nil => cases h
  | cons e rest ih =>
    obtain ⟨k0, v0⟩ := e
    by_cases hk : k0 = k
    · subst hk
      simp only [lookupEntries, if_pos rfl] at h
      cases h
      exact List.mem_cons_self _ _
    · simp only [lookupEntries, if_neg hk] at h
      exact List.mem_cons_of_mem _ (ih h)

theorem getFromCache_mem {st : CacheState} {k : String} {v : DailyRow}
    (h : getFromCache st k = some v) : (k, v) ∈ st.entries := by
  unfold getFromCache at h
  split at h
  · exact lookupEntries_mem h
  · cases h

theorem cacheFindAttempts_mem {st : CacheState} {userId : Option String}
    {hemi dateStr : String} {attempts : List String} {c : DailyRow}
    (h : cacheFindAttempts st userId hemi dateStr attempts = some c) :
    ∃ k, (k, c) ∈ st.entries := by
  induction attempts with
  | nil => cases h
  | cons s rest ih =>
    simp only [cacheFindAttempts] at h
    split at h
    next c0 heq =>
      split at h
      · cases h
        exact ⟨_, getFromCache_mem heq⟩
      · exact ih h
    next heq => exact ih h

theorem cacheFindAnchors_mem {st : CacheState} {userId : Option String}
    {hemi : String} {attempts anchors : List String} {c : DailyRow}
    (h : cacheFindAnchors st userId hemi attempts anchors = some c) :
    ∃ k, (k, c) ∈ st.entries := by
  induction anchors with
  | nil => cases h
  | cons d rest ih =>
    simp only [cacheFindAnchors] at h
    split at h
    next c0 heq =>
      cases h
      exact cacheFindAttempts_mem heq
    next heq => exact ih h

theorem stage1Result_mem {opts : DailyOpts} {hemi : String}
    {attempts anchors : List String} {cache0 : CacheState} {c : DailyRow}
    (h : stage1Result opts hemi attempts anchors cache0 = some c) :
    ∃ k, (k, c) ∈ cache0.entries := by
  unfold stage1Result at h
  split at h
  · cases h
  · exact cacheFindAnchors_mem h

theorem findDateHit_spec {rows : List DailyRow} {attempts : List String}
    {cand : String} {hit : DailyRow}
    (h : findDateHit rows attempts = some (cand, hit)) :
    cand ∈ attempts ∧ hit ∈ rows ∧ rowMatchesSign hit.sign cand = true := by
  induction attempts with
  | nil => cases h
  | cons c0 rest ih =>
    simp only [findDateHit] at h
    split at h
    next m heq =>
      cases h
      exact ⟨List.mem_cons_self _ _, List.mem_of_find?_eq_some heq,
        by simpa using List.find?_some heq⟩
    next heq =>
      obtain ⟨h1, h2, h3⟩ := ih h
      exact ⟨List.mem_cons_of_mem _ h1, h2, h3⟩

theorem stage2Find_spec {env : RemoteEnv} {hemi : String} {attempts : List String} :
    ∀ {anchors : List String} {d cand : String} {clean : DailyRow},
    (stage2Find env hemi attempts anchors).1 = some (d, cand, clean) →
    d ∈ anchors ∧ cand ∈ attempts ∧
    ∃ hit, clean = cleanRow hit ∧ rowMatchesSign hit.sign cand = true ∧
      ∃ data, env.listByDate d (buildHemisphereVariants hemi) = Except.ok data ∧
        hit ∈ data.map cleanRow := by
  intro anchors
  induction anchors with
  | nil => intro d cand clean h; cases h
  | cons a rest ih =>
    intro d cand clean h
    simp only [stage2Find] at h
    cases henv : env.listByDate a (buildHemisphereVariants hemi) with
    | error e =>
      rw [show fetchRowsForDate env hemi a = ([], true) by
          simp [fetchRowsForDate, henv]] at h
      simp only [Bool.true_or, if_true] at h
      obtain ⟨h1, h2, h3⟩ := ih h
      exact ⟨List.mem_cons_of_mem _ h1, h2, h3⟩
    | ok data =>
      rw [show fetchRowsForDate env hemi a = (data.map cleanRow, false) by
          simp [fetchRowsForDate, henv]] at h
      simp only [Bool.false_or] at h
      by_cases hemp : (data.map cleanRow).isEmpty = true
      · rw [if_pos hemp] at h
        obtain ⟨h1, h2, h3⟩ := ih h
        exact ⟨List.mem_cons_of_mem _ h1, h2, h3⟩
      · rw [if_neg hemp] at h
        cases hfind : findDateHit (data.map cleanRow) attempts with
        | none =>
          rw [hfind] at h
          obtain ⟨h1, h2, h3⟩ := ih h
          exact ⟨List.mem_cons_of_mem _ h1, h2, h3⟩
        | some pr =>
          obtain ⟨cand0, hit0⟩ := pr
          rw [hfind] at h
          cases h
          obtain ⟨hc1, hc2, hc3⟩ := findDateHit_spec hfind
          exact ⟨List.mem_cons_self _ _, hc1, hit0, rfl, hc3, data, henv, hc2⟩

theorem findLatestMatch_shape {data : List DailyRow} {attempts : List String}
    {r : DailyRow} (h : findLatestMatch data attempts = some r) :
    ∃ m, m ∈ data ∧ r = cleanRow m := by
  induction attempts with
  | nil => cases h
  | cons c0 rest ih =>
    simp only [findLatestMatch] at h
    split at h
    next m heq =>
      cases h
      exact ⟨m, List.mem_of_find?_eq_some heq, rfl⟩
    next heq => exact ih h

theorem fetchLatest_shape {env : RemoteEnv} {hemi : String}
    {attempts : List String} {r : DailyRow}
    (h : fetchLatestForSignAndHemi env hemi attempts = some r) :
    ∃ m, r = cleanRow m := by
  unfold fetchLatestForSignAndHemi at h
  split at h
  · cases h
  · split at h
    · cases h
    · obtain ⟨m, _, hm⟩ := findLatestMatch_shape h
      exact ⟨m, hm⟩

-- ===========================================================================
-- C6: content fields of resolved records
-- ===========================================================================

/-- C6 counterexample: the stage-1 cache pass returns the stored entry
verbatim, checking only sign, hemisphere and date; a cache entry whose
content fields are absent (e.g. one written by other code into the shared
storage namespace) is returned with its content fields still absent, so the
claim that every record returned by the resolver has string content fields
fails on such a cache state. -/
theorem resolve_cache_stage_not_coerced :
    (getDailyForecast "Aries" "Southern" { forceDate := some "2024-01-01" }
        ⟨"2024-01-01", "2023-12-31", "2024-01-02", "2024-01-01", "2024-01-01"⟩
        { listByDate := fun _ _ => Except.ok [], listLatest := fun _ => Except.ok [] }
        ⟨true, [("daily:anon:Aries:Southern:2024-01-01",
          { sign := "Aries", hemisphere := "Southern", date := "2024-01-01" })]⟩).result
      = some { sign := "Aries", hemisphere := "Southern", date := "2024-01-01" }
    ∧ (DailyRow.daily_horoscope
        { sign := "Aries", hemisphere := "Southern", date := "2024-01-01" }) = none := by
  constructor
  · decide
  · rfl

/-- C6 (amended): a record returned by either remote stage always carries
all three content fields as strings (absent columns are coerced to the empty
string and the source tag is stamped); a record returned by the cache stage
carries them whenever the stored entry does — in particular on every cache
state whose entries were written by the engine itself.  The stage-1 pass
returns the stored entry verbatim, so the invariant holds of all resolver
outputs exactly when it holds of the cache contents. -/
theorem resolve_content_fields_present
    (signIn hemisphereIn : String) (opts : DailyOpts) (clock : ClockEnv)
    (env : RemoteEnv) (cache0 : CacheState) (rec : DailyRow)
    (hcache : ∀ k r, (k, r) ∈ cache0.entries →
        r.daily_horoscope.isSome ∧ r.affirmation.isSome ∧ r.deeper_insight.isSome)
    (hres : (getDailyForecast signIn hemisphereIn opts clock env cache0).result
        = some rec) :
    rec.daily_horoscope.isSome ∧ rec.affirmation.isSome ∧ rec.deeper_insight.isSome := by
  simp only [getDailyForecast] at hres
  cases h1 : stage1Result opts (hemiToDB (some hemisphereIn)) (attemptsFor signIn opts)
      (anchorsFor opts clock) cache0 with
  | some c =>
    rw [h1] at hres
    simp only at hres
    cases hres
    obtain ⟨k, hk⟩ := stage1Result_mem h1
    exact hcache k rec hk
  | none =>
    rw [h1] at hres
    cases h2 : (stage2Find env (hemiToDB (some hemisphereIn)) (attemptsFor signIn opts)
        (anchorsFor opts clock)).1 with
    | some t =>
      obtain ⟨d, cand, clean⟩ := t
      rw [h2] at hres
      simp only at hres
      cases hres
      obtain ⟨_, _, hit, hclean, _⟩ := stage2Find_spec h2
      subst hclean
      exact ⟨rfl, rfl, rfl⟩
    | none =>
      rw [h2] at hres
      cases h3 : fetchLatestForSignAndHemi env (hemiToDB (some hemisphereIn))
          (attemptsFor signIn opts) with
      | some latest =>
        rw [h3] at hres
        simp only at hres
        cases hres
        obtain ⟨m, hm⟩ := fetchLatest_shape h3
        subst hm
        exact ⟨rfl, rfl, rfl⟩
      | none =>
        rw [h3] at hres
        cases hres

/-- Concrete instance of `resolve_content_fields_present`: a remote row with
absent content columns resolves to a record with all three fields present. -/
theorem resolve_content_fields_present_witness :
    ((getDailyForecast "Aries" "Southern" { forceDate := some "2024-01-01" }
        ⟨"2024-01-01", "2023-12-31", "2024-01-02", "2024-01-01", "2024-01-01"⟩
        { listByDate := fun _ _ => Except.ok
            [{ sign := "Aries", hemisphere := "Southern", date := "2024-01-01" }]
          listLatest := fun _ => Except.ok [] }
        ⟨true, []⟩).result.map DailyRow.daily_horoscope).isSome = true :=
  by
    have h := resolve_content_fields_present "Aries" "Southern"
      { forceDate := some "2024-01-01" }
      ⟨"2024-01-01", "2023-12-31", "2024-01-02", "2024-01-01", "2024-01-01"⟩
      { listByDate := fun _ _ => Except.ok
          [{ sign := "Aries", hemisphere := "Southern", date := "2024-01-01" }]
        listLatest := fun _ => Except.ok [] }
      ⟨true, []⟩
      { sign := "Aries", hemisphere := "Southern", date := "2024-01-01",
        daily_horoscope := some "", affirmation := some "",
        deeper_insight := some "", source_table := some "horoscope_cache" }
      (by intro k r hk; cases hk) (by decide)
    decide

-- ===========================================================================
-- C1: repeated resolution and the cache
-- ===========================================================================

/-- C1 counterexample: a matching remote record exists (single anchor, the
very first date-scoped query matches), caching is enabled (default options),
but the cache storage is unavailable — a legitimate cache state
(`typeof window === 'undefined'`, quota exceeded, privacy mode).  The
stage-2 write is then a silent no-op, the second call misses the cache and
repeats the remote query: two immediate calls issue two remote calls in
total, refuting "at most one remote call in total" over all cache states. -/
theorem resolve_twice_not_single_remote_call :
    ¬((getDailyForecast "Aries" "Southern" {}
          ⟨"2024-01-01", "2023-12-31", "2024-01-02", "2024-01-01", "2024-01-01"⟩
          { listByDate := fun _ _ => Except.ok
              [{ sign := "Aries", hemisphere := "Southern", date := "2024-01-01",
                 daily_horoscope := some "text" }]
            listLatest := fun _ => Except.ok [] }
          ⟨false, []⟩).remoteCalls
        + (getDailyForecast "Aries" "Southern" {}
          ⟨"2024-01-01", "2023-12-31", "2024-01-02", "2024-01-01", "2024-01-01"⟩
          { listByDate := fun _ _ => Except.ok
              [{ sign := "Aries", hemisphere := "Southern", date := "2024-01-01",
                 daily_horoscope := some "text" }]
            listLatest := fun _ => Except.ok [] }
          (getDailyForecast "Aries" "Southern" {}
            ⟨"2024-01-01", "2023-12-31", "2024-01-02", "2024-01-01", "2024-01-01"⟩
            { listByDate := fun _ _ => Except.ok
                [{ sign := "Aries", hemisphere := "Southern", date := "2024-01-01",
                   daily_horoscope := some "text" }]
              listLatest := fun _ => Except.ok [] }
            ⟨false, []⟩).cache).remoteCalls ≤ 1) := by
  decide

theorem rowMatchesSign_left_ne_empty {s cand : String}
    (h : rowMatchesSign s cand = true) : s ≠ "" := by
  intro hc
  subst hc
  simp [rowMatchesSign] at h

theorem lookupEntries_setEntries_self (es : List (String × DailyRow))
    (k : String) (v : DailyRow) : lookupEntries (setEntries es k v) k = some v := by
  induction es with
  | nil => simp [setEntries, lookupEntries]
  | cons e rest ih =>
    obtain ⟨k0, v0⟩ := e
    by_cases hk : k0 = k
    · subst hk
      simp [setEntries, lookupEntries]
    · simp only [setEntries, if_neg hk, lookupEntries]
      exact ih

theorem getFromCache_setInCache_self {st : CacheState} (havail : st.available = true)
    (k : String) (v : DailyRow) : getFromCache (setInCache k v st) k = some v := by
  unfold setInCache getFromCache
  rw [if_pos havail]
  simp only [havail, if_true]
  exact lookupEntries_setEntries_self st.entries k v

theorem setInCache_available (k : String) (v : DailyRow) (st : CacheState) :
    (setInCache k v st).available = st.available := by
  unfold setInCache
  split
  · rfl
  · rfl

theorem cacheFindAttempts_isSome {st : CacheState} {userId : Option String}
    {hemi dateStr : String} {attempts : List String} {s : String} {c : DailyRow}
    (hs : s ∈ attempts)
    (hc : getFromCache st (cacheKeyDaily userId s hemi dateStr) = some c)
    (hwf : wellFormedCached c = true) :
    (cacheFindAttempts st userId hemi dateStr attempts).isSome = true := by
  induction attempts with
  | nil => cases hs
  | cons s0 rest ih =>
    simp only [cacheFindAttempts]
    split
    next c0 heq =>
      split
      · rfl
      next hw0 =>
        rcases List.mem_cons.mp hs with rfl | hs'
        · rw [heq] at hc
          cases hc
          exact absurd hwf hw0
        · exact ih hs'
    next heq =>
      rcases List.mem_cons.mp hs with rfl | hs'
      · rw [heq] at hc
        cases hc
      · exact ih hs'

theorem cacheFindAnchors_isSome {st : CacheState} {userId : Option String}
    {hemi : String} {attempts anchors : List String} {d : String}
    (hd : d ∈ anchors)
    (hinner : (cacheFindAttempts st userId hemi d attempts).isSome = true) :
    (cacheFindAnchors st userId hemi attempts anchors).isSome = true := by
  induction anchors with
  | nil => cases hd
  | cons d0 rest ih =>
    simp only [cacheFindAnchors]
    split
    next c0 heq => rfl
    next heq =>
      rcases List.mem_cons.mp hd with rfl | hd'
      · rw [heq] at hinner
        simp at hinner
      · exact ih hd'

/-- C1 (amended): with caching enabled and the cache storage available, if a
matching record is reachable (the first call resolves via the stage-1 cache
pass or via a stage-2 date-scoped match) and remote rows carry nonempty date
and region columns, then the second of two immediate calls for the same
tuple issues no remote query at all: the first call's stage-2 cache write
under the matched attempt and anchor (or the already-present entry) makes
the second call return from the stage-1 cache pass, leaving the cache
unchanged.  Total remote traffic is therefore that of the first call alone
— at most one query per anchor plus at most one fallback query. -/
theorem resolve_second_call_from_cache
    (signIn hemisphereIn : String) (opts : DailyOpts) (clock : ClockEnv)
    (env : RemoteEnv) (cache0 : CacheState)
    (hcacheOn : ¬opts.useCache = some false)
    (havail : cache0.available = true)
    (hwell : ∀ d hv data, env.listByDate d hv = Except.ok data →
        ∀ r ∈ data, r.date ≠ "" ∧ r.hemisphere ≠ "")
    (hmatch : ¬stage1Result opts (hemiToDB (some hemisphereIn)) (attemptsFor signIn opts)
          (anchorsFor opts clock) cache0 = none
        ∨ ((stage2Find env (hemiToDB (some hemisphereIn)) (attemptsFor signIn opts)
          (anchorsFor opts clock)).1).isSome = true) :
    (getDailyForecast signIn hemisphereIn opts clock env
        (getDailyForecast signIn hemisphereIn opts clock env cache0).cache).remoteCalls = 0
    ∧ (getDailyForecast signIn hemisphereIn opts clock env
        (getDailyForecast signIn hemisphereIn opts clock env cache0).cache).cache
      = (getDailyForecast signIn hemisphereIn opts clock env cache0).cache
    ∧ ((getDailyForecast signIn hemisphereIn opts clock env
        (getDailyForecast signIn hemisphereIn opts clock env cache0).cache).result).isSome
      = true := by
  by_cases h1 : stage1Result opts (hemiToDB (some hemisphereIn)) (attemptsFor signIn opts)
      (anchorsFor opts clock) cache0 = none
  · have h2s : ((stage2Find env (hemiToDB (some hemisphereIn)) (attemptsFor signIn opts)
        (anchorsFor opts clock)).1).isSome = true := by
      rcases hmatch with hm | hm
      · exact absurd h1 hm
      · exact hm
    obtain ⟨t, ht⟩ := Option.isSome_iff_exists.mp h2s
    obtain ⟨d, cand, clean⟩ := t
    obtain ⟨hdanch, hcand, hit, hclean, hrm, data, henv, hitmem⟩ := stage2Find_spec ht
    obtain ⟨raw, hrawmem, hraweq⟩ := List.mem_map.mp hitmem
    subst hclean
    subst hraweq
    have hdr := hwell _ _ _ henv raw hrawmem
    have hsign : raw.sign ≠ "" := rowMatchesSign_left_ne_empty hrm
    have hwf : wellFormedCached (cleanRow (cleanRow raw)) = true := by
      simp [wellFormedCached, cleanRow, hdr.1, hdr.2, hsign]
    have e1 : getDailyForecast signIn hemisphereIn opts clock env cache0
        = ⟨some (cleanRow (cleanRow raw)),
           setInCache (cacheKeyDaily opts.userId cand (hemiToDB (some hemisphereIn)) d)
             (cleanRow (cleanRow raw)) cache0,
           (stage2Find env (hemiToDB (some hemisphereIn)) (attemptsFor signIn opts)
             (anchorsFor opts clock)).2⟩ := by
      simp only [getDailyForecast]
      rw [h1, ht]
    have hget : getFromCache
        (setInCache (cacheKeyDaily opts.userId cand (hemiToDB (some hemisphereIn)) d)
          (cleanRow (cleanRow raw)) cache0)
        (cacheKeyDaily opts.userId cand (hemiToDB (some hemisphereIn)) d)
        = some (cleanRow (cleanRow raw)) :=
      getFromCache_setInCache_self havail _ _
    have hattempt := cacheFindAttempts_isSome hcand hget hwf
    have hanch := cacheFindAnchors_isSome hdanch hattempt
    obtain ⟨c2, hc2⟩ : ∃ c2, stage1Result opts (hemiToDB (some hemisphereIn))
        (attemptsFor signIn opts) (anchorsFor opts clock)
        (setInCache (cacheKeyDaily opts.userId cand (hemiToDB (some hemisphereIn)) d)
          (cleanRow (cleanRow raw)) cache0) = some c2 := by
      unfold stage1Result
      rw [if_neg hcacheOn]
      exact Option.isSome_iff_exists.mp hanch
    have e2 : getDailyForecast signIn hemisphereIn opts clock env
        (setInCache (cacheKeyDaily opts.userId cand (hemiToDB (some hemisphereIn)) d)
          (cleanRow (cleanRow raw)) cache0)
        = ⟨some c2,
           setInCache (cacheKeyDaily opts.userId cand (hemiToDB (some hemisphereIn)) d)
             (cleanRow (cleanRow raw)) cache0, 0⟩ := by
      simp only [getDailyForecast]
      rw [hc2]
    have e1c : (getDailyForecast signIn hemisphereIn opts clock env cache0).cache
        = setInCache (cacheKeyDaily opts.userId cand (hemiToDB (some hemisphereIn)) d)
            (cleanRow (cleanRow raw)) cache0 := by
      rw [e1]
    rw [e1c, e2]
    exact ⟨rfl, rfl, rfl⟩
  · obtain ⟨c, hc⟩ := Option.ne_none_iff_exists'.mp h1
    have e1 : getDailyForecast signIn hemisphereIn opts clock env cache0
        = ⟨some c, cache0, 0⟩ := by
      simp only [getDailyForecast]
      rw [hc]
    have e1c : (getDailyForecast signIn hemisphereIn opts clock env cache0).cache
        = cache0 := by
      rw [e1]
    rw [e1c, e1]
    exact ⟨rfl, rfl, rfl⟩

/-- Concrete instance of `resolve_second_call_from_cache`: single anchor,
available cache, stage-2 match on the first call; the second call reads the
cache and issues no remote query. -/
theorem resolve_second_call_from_cache_witness :
    (getDailyForecast "Aries" "Southern" {}
        ⟨"2024-01-01", "2023-12-31", "2024-01-02", "2024-01-01", "2024-01-01"⟩
        { listByDate := fun _ _ => Except.ok
            [{ sign := "Aries", hemisphere := "Southern", date := "2024-01-01",
               daily_horoscope := some "text" }]
          listLatest := fun _ => Except.ok [] }
        (getDailyForecast "Aries" "Southern" {}
          ⟨"2024-01-01", "2023-12-31", "2024-01-02", "2024-01-01", "2024-01-01"⟩
          { listByDate := fun _ _ => Except.ok
              [{ sign := "Aries", hemisphere := "Southern", date := "2024-01-01",
                 daily_horoscope := some "text" }]
            listLatest := fun _ => Except.ok [] }
          ⟨true, []⟩).cache).remoteCalls = 0 :=
  (resolve_second_call_from_cache "Aries" "Southern" {}
    ⟨"2024-01-01", "2023-12-31", "2024-01-02", "2024-01-01", "2024-01-01"⟩
    { listByDate := fun _ _ => Except.ok
        [{ sign := "Aries", hemisphere := "Southern", date := "2024-01-01",
           daily_horoscope := some "text" }]
      listLatest := fun _ => Except.ok [] }
    ⟨true, []⟩ (by decide) rfl
    (by
      intro d hv data hdata r hr
      cases hdata
      simp only [List.mem_singleton] at hr
      subst hr
      exact ⟨by decide, by decide⟩)
    (Or.inr (by decide))).1

-- ===========================================================================
-- Character facts used by the label-equivalence theorems (C3)
-- ===========================================================================

theorem charToNat_inj {c1 c2 : Char} (h : c1.toNat = c2.toNat) : c1 = c2 :=
  Char.ext (UInt32.toNat.inj h)

theorem toNat_ofNat_valid (n : Nat) (h : n.isValidChar) : (Char.ofNat n).toNat = n := by
  rw [Char.ofNat, dif_pos h]
  rfl

theorem toLower_eq_self {c : Char} (h : ¬(65 ≤ c.toNat ∧ c.toNat ≤ 90)) :
    Char.toLower c = c := by
  unfold Char.toLower
  exact if_neg h

theorem toLower_toNat_shift {c : Char} (h : 65 ≤ c.toNat ∧ c.toNat ≤ 90) :
    (Char.toLower c).toNat = c.toNat + 32 := by
  have e : Char.toLower c = Char.ofNat (c.toNat + 32) := by
    unfold Char.toLower
    exact if_pos h
  rw [e]
  exact toNat_ofNat_valid _ (Or.inl (by omega))

theorem ws_iff_toNat {c : Char} : c.isWhitespace = true ↔
    (c.toNat = 32 ∨ c.toNat = 9 ∨ c.toNat = 13 ∨ c.toNat = 10) := by
  unfold Char.isWhitespace
  simp only [Bool.or_eq_true, decide_eq_true_eq, or_assoc]
  constructor
  · rintro (rfl | rfl | rfl | rfl) <;> decide
  · rintro (h | h | h | h)
    · exact Or.inl (charToNat_inj (by rw [h]; decide))
    · exact Or.inr (Or.inl (charToNat_inj (by rw [h]; decide)))
    · exact Or.inr (Or.inr (Or.inl (charToNat_inj (by rw [h]; decide))))
    · exact Or.inr (Or.inr (Or.inr (charToNat_inj (by rw [h]; decide))))

theorem ws_false_of_ge {c : Char} (h1 : 33 ≤ c.toNat) : c.isWhitespace = false := by
  cases hb : c.isWhitespace
  · rfl
  · exfalso
    rcases ws_iff_toNat.mp hb with h | h | h | h <;> omega

/-- Lowercasing does not change whitespace status. -/
theorem toLower_ws (c : Char) : (Char.toLower c).isWhitespace = c.isWhitespace := by
  rcases em (65 ≤ c.toNat ∧ c.toNat ≤ 90) with h | h
  · rw [ws_false_of_ge (by rw [toLower_toNat_shift h]; omega),
      ws_false_of_ge (by omega)]
  · rw [toLower_eq_self h]

theorem toLower_ws_congr {c1 c2 : Char} (h : Char.toLower c1 = Char.toLower c2) :
    c1.isWhitespace = c2.isWhitespace := by
  rw [← toLower_ws c1, ← toLower_ws c2, h]

/-- Dash normalization does not change whitespace status. -/
theorem dashFix_ws (c : Char) : (dashFix c).isWhitespace = c.isWhitespace := by
  unfold dashFix
  split
  next h =>
    rcases h with rfl | rfl <;> rfl
  next h => rfl

theorem dashFix_ws_congr {c1 c2 : Char} (h : dashFix c1 = dashFix c2) :
    c1.isWhitespace = c2.isWhitespace := by
  rw [← dashFix_ws c1, ← dashFix_ws c2, h]

/-- Being a dash is determined by the lowercase image. -/
theorem dash_iff_toLower (c : Char) :
    (c = '–' ∨ c = '—') ↔ (Char.toLower c = '–' ∨ Char.toLower c = '—') := by
  rcases em (65 ≤ c.toNat ∧ c.toNat ≤ 90) with hc | hc
  · constructor
    · rintro (rfl | rfl)
      · exact absurd hc (by decide)
      · exact absurd hc (by decide)
    · intro hl
      exfalso
      have hs := toLower_toNat_shift hc
      have hv1 : ('–' : Char).toNat = 8211 := by decide
      have hv2 : ('—' : Char).toNat = 8212 := by decide
      rcases hl with he | he
      · rw [he] at hs
        omega
      · rw [he] at hs
        omega
  · rw [toLower_eq_self hc]

/-- The lowercase image determines the lowercase image after `dashFix`. -/
theorem toLower_dashFix_congr {c1 c2 : Char} (h : Char.toLower c1 = Char.toLower c2) :
    Char.toLower (dashFix c1) = Char.toLower (dashFix c2) := by
  by_cases hd1 : c1 = '–' ∨ c1 = '—'
  · have hd2 : c2 = '–' ∨ c2 = '—' := by
      rw [dash_iff_toLower c2, ← h, ← dash_iff_toLower c1]
      exact hd1
    unfold dashFix
    rw [if_pos hd1, if_pos hd2]
  · have hd2 : ¬(c2 = '–' ∨ c2 = '—') := by
      rw [dash_iff_toLower c2, ← h, ← dash_iff_toLower c1]
      exact hd1
    unfold dashFix
    rw [if_neg hd1, if_neg hd2]
    exact h

-- ===========================================================================
-- Projection-congruence lemmas: a character projection that determines
-- whitespace status is preserved by the whitespace-structural stages
-- ===========================================================================

theorem map_congr_of_map_eq {f g : Char → Char}
    (hfg : ∀ c1 c2, f c1 = f c2 → g c1 = g c2) :
    ∀ {l1 l2 : List Char}, l1.map f = l2.map f → l1.map g = l2.map g := by
  intro l1
  induction l1 with
  | nil =>
    intro l2 h
    rw [List.eq_nil_of_map_eq_nil h.symm]
  | cons c1 t1 ih =>
    intro l2 h
    cases l2 with
    | nil => simp at h
    | cons c2 t2 =>
      simp only [List.map_cons, List.cons.injEq] at h ⊢
      exact ⟨hfg _ _ h.1, ih h.2⟩

theorem map_eq_dropWhile_ws {f : Char → Char}
    (hcong : ∀ c1 c2, f c1 = f c2 → c1.isWhitespace = c2.isWhitespace) :
    ∀ {l1 l2 : List Char}, l1.map f = l2.map f →
    (l1.dropWhile Char.isWhitespace).map f = (l2.dropWhile Char.isWhitespace).map f := by
  intro l1
  induction l1 with
  | nil =>
    intro l2 h
    rw [List.eq_nil_of_map_eq_nil h.symm]
  | cons c1 t1 ih =>
    intro l2 h
    cases l2 with
    | nil => simp at h
    | cons c2 t2 =>
      simp only [List.map_cons, List.cons.injEq] at h
      have hws := hcong _ _ h.1
      cases hc : c2.isWhitespace
      · rw [List.dropWhile_cons_of_neg (by simp [hws, hc]),
          List.dropWhile_cons_of_neg (by simp [hc])]
        simp only [List.map_cons, List.cons.injEq]
        exact ⟨h.1, h.2⟩
      · rw [List.dropWhile_cons_of_pos (by rw [hws]; exact hc),
          List.dropWhile_cons_of_pos hc]
        exact ih h.2

theorem map_eq_reverse {f : Char → Char} {l1 l2 : List Char}
    (h : l1.map f = l2.map f) : l1.reverse.map f = l2.reverse.map f := by
  rw [List.map_reverse, List.map_reverse, h]

theorem map_eq_jsTrim {f : Char → Char}
    (hcong : ∀ c1 c2, f c1 = f c2 → c1.isWhitespace = c2.isWhitespace)
    {l1 l2 : List Char} (h : l1.map f = l2.map f) :
    (jsTrim l1).map f = (jsTrim l2).map f := by
  unfold jsTrim
  exact map_eq_reverse (map_eq_dropWhile_ws hcong
    (map_eq_reverse (map_eq_dropWhile_ws hcong h)))

theorem map_eq_collapseGo {f : Char → Char}
    (hcong : ∀ c1 c2, f c1 = f c2 → c1.isWhitespace = c2.isWhitespace) :
    ∀ {l1 l2 : List Char} (b : Bool), l1.map f = l2.map f →
    (collapseGo l1 b).map f = (collapseGo l2 b).map f := by
  intro l1
  induction l1 with
  | nil =>
    intro l2 b h
    rw [List.eq_nil_of_map_eq_nil h.symm]
  | cons c1 t1 ih =>
    intro l2 b h
    cases l2 with
    | nil => simp at h
    | cons c2 t2 =>
      simp only [List.map_cons, List.cons.injEq] at h
      have hws := hcong _ _ h.1
      simp only [collapseGo]
      cases hc : c2.isWhitespace
      · rw [hws, hc]
        simp only [Bool.false_eq_true, if_false, List.map_cons, List.cons.injEq]
        exact ⟨h.1, ih false h.2⟩
      · rw [hws, hc]
        simp only [if_true]
        cases b
        · simp only [Bool.false_eq_true, if_false, List.map_cons, List.cons.injEq]
          exact ⟨trivial, ih true h.2⟩
        · simp only [if_true]
          exact ih true h.2

theorem stripCuspRev_short {r : List Char}
    (h : (r.dropWhile Char.isWhitespace).length ≤ 3) : stripCuspRev r = r := by
  simp only [stripCuspRev]
  cases hd : r.dropWhile Char.isWhitespace with
  | nil => rfl
  | cons a t1 =>
    cases t1 with
    | nil => rfl
    | cons b t2 =>
      cases t2 with
      | nil => rfl
      | cons c t3 =>
        cases t3 with
        | nil => rfl
        | cons d t4 =>
          rw [hd] at h
          simp only [List.length_cons] at h
          omega

theorem stripCuspRev_long {r : List Char} {p s u c : Char} {rest : List Char}
    (hd : r.dropWhile Char.isWhitespace = p :: s :: u :: c :: rest) :
    stripCuspRev r =
      if p.toLower = 'p' ∧ s.toLower = 's' ∧ u.toLower = 'u' ∧ c.toLower = 'c' then
        rest.dropWhile Char.isWhitespace
      else r := by
  simp only [stripCuspRev, hd]

theorem exists_four_cons {l : List Char} (h : 4 ≤ l.length) :
    ∃ a b c d t, l = a :: b :: c :: d :: t := by
  rcases l with _ | ⟨a, _ | ⟨b, _ | ⟨c, _ | ⟨d, t⟩⟩⟩⟩
  · simp at h
  · simp only [List.length_cons, List.length_nil] at h
    omega
  · simp only [List.length_cons, List.length_nil] at h
    omega
  · simp only [List.length_cons, List.length_nil] at h
    omega
  · exact ⟨a, b, c, d, t, rfl⟩

theorem map_lower_stripCuspRev {l1 l2 : List Char}
    (h : l1.map Char.toLower = l2.map Char.toLower) :
    (stripCuspRev l1).map Char.toLower = (stripCuspRev l2).map Char.toLower := by
  have hd := map_eq_dropWhile_ws (fun c1 c2 hc => toLower_ws_congr hc) h
  have hlen : (l1.dropWhile Char.isWhitespace).length
      = (l2.dropWhile Char.isWhitespace).length := by
    have := congrArg List.length hd
    simpa using this
  by_cases hl : (l1.dropWhile Char.isWhitespace).length ≤ 3
  · rw [stripCuspRev_short hl, stripCuspRev_short (by omega)]
    exact h
  · obtain ⟨p1, s1, u1, c1, rest1, he1⟩ := exists_four_cons (l := l1.dropWhile Char.isWhitespace) (by omega)
    obtain ⟨p2, s2, u2, c2, rest2, he2⟩ := exists_four_cons (l := l2.dropWhile Char.isWhitespace) (by omega)
    rw [he1, he2] at hd
    simp only [List.map_cons, List.cons.injEq] at hd
    obtain ⟨hp, hs, hu, hc, ht⟩ := hd
    rw [stripCuspRev_long he1, stripCuspRev_long he2]
    by_cases hcond : p1.toLower = 'p' ∧ s1.toLower = 's' ∧ u1.toLower = 'u' ∧ c1.toLower = 'c'
    · rw [if_pos hcond, if_pos (by rw [← hp, ← hs, ← hu, ← hc]; exact hcond)]
      exact map_eq_dropWhile_ws (fun c1 c2 hc => toLower_ws_congr hc) ht
    · rw [if_neg hcond, if_neg (by rw [← hp, ← hs, ← hu, ← hc]; exact hcond)]
      exact h

/-- The `rowMatchesSign` normal form is determined by the lowercase image of
the raw label. -/
theorem normSign_congr_lower {a1 a2 : String}
    (h : lowerAll a1.data = lowerAll a2.data) : normSign a1 = normSign a2 := by
  simp only [lowerAll] at h
  have h1 := map_eq_jsTrim (fun c1 c2 hc => toLower_ws_congr hc) h
  have h2 := map_eq_collapseGo (fun c1 c2 hc => toLower_ws_congr hc) false h1
  have h3 : ((collapseGo (jsTrim a1.data) false).map dashFix).map Char.toLower
      = ((collapseGo (jsTrim a2.data) false).map dashFix).map Char.toLower := by
    rw [List.map_map, List.map_map]
    exact map_congr_of_map_eq (fun c1 c2 hc => toLower_dashFix_congr hc) h2
  have h4 := map_eq_reverse (map_lower_stripCuspRev (map_eq_reverse h3))
  unfold normSign stripCuspEnd collapseWS lowerAll
  exact h4

/-- The `rowMatchesSign` normal form is determined by the dash-normalized
image of the raw label. -/
theorem normSign_congr_dash {a1 a2 : String}
    (h : a1.data.map dashFix = a2.data.map dashFix) : normSign a1 = normSign a2 := by
  have h1 := map_eq_jsTrim (fun c1 c2 hc => dashFix_ws_congr hc) h
  have h2 := map_eq_collapseGo (fun c1 c2 hc => dashFix_ws_congr hc) false h1
  unfold normSign collapseWS
  rw [h2]

/-- The `rowMatchesSign` normal form is determined by the trimmed,
whitespace-collapsed form of the raw label. -/
theorem normSign_congr_ws {a1 a2 : String}
    (h : collapseWS (jsTrim a1.data) = collapseWS (jsTrim a2.data)) :
    normSign a1 = normSign a2 := by
  unfold normSign
  rw [h]

theorem rowMatchesSign_congr_left {a1 a2 : String} (hemp : a1 = "" ↔ a2 = "")
    (hnorm : normSign a1 = normSign a2) (b : String) :
    rowMatchesSign a1 b = rowMatchesSign a2 b := by
  unfold rowMatchesSign
  by_cases hg : a1 = "" ∨ b = ""
  · rw [if_pos hg, if_pos (by
      rcases hg with hg | hg
      · exact Or.inl (hemp.mp hg)
      · exact Or.inr hg)]
  · rw [if_neg hg, if_neg (by
      intro hc
      refine hg ?_
      rcases hc with hc | hc
      · exact Or.inl (hemp.mpr hc)
      · exact Or.inr hc)]
    rw [hnorm]

-- ===========================================================================
-- Whitespace-collapse bookkeeping for the trailing-Cusp invariance
-- ===========================================================================

/-- The flag `collapseGo` carries after processing a list: the whitespace
status of the last character, or the initial flag for the empty list. -/
def flagAfter : List Char → Bool → Bool
  | [], b => b
  | c :: cs, _ => flagAfter cs c.isWhitespace

theorem flagAfter_append (t r : List Char) (b : Bool) :
    flagAfter (t ++ r) b = flagAfter r (flagAfter t b) := by
  induction t generalizing b with
  | nil => rfl
  | cons c cs ih =>
    simp only [List.cons_append, flagAfter]
    exact ih _

theorem collapseGo_append (t r : List Char) :
    ∀ b, collapseGo (t ++ r) b = collapseGo t b ++ collapseGo r (flagAfter t b) := by
  induction t with
  | nil => intro b; rfl
  | cons c cs ih =>
    intro b
    simp only [List.cons_append, collapseGo, flagAfter]
    cases hc : c.isWhitespace
    · simp only [Bool.false_eq_true, if_false, List.cons_append]
      exact congrArg (c :: .) (ih false)
    · simp only [if_true]
      cases b
      · simp only [Bool.false_eq_true, if_false, List.cons_append]
        exact congrArg (' ' :: .) (ih true)
      · simp only [if_true]
        exact ih true

theorem collapseGo_wsfree {w : List Char}
    (hw : ∀ c ∈ w, c.isWhitespace = false) : ∀ b, collapseGo w b = w := by
  induction w with
  | nil => intro b; rfl
  | cons c cs ih =>
    intro b
    simp only [collapseGo, hw c (List.mem_cons_self _ _), Bool.false_eq_true, if_false]
    rw [ih (fun x hx => hw x (List.mem_cons_of_mem _ hx)) false]

theorem collapseGo_allws_true {w : List Char}
    (hw : ∀ c ∈ w, c.isWhitespace = true) : collapseGo w true = [] := by
  induction w with
  | nil => rfl
  | cons c cs ih =>
    simp only [collapseGo, hw c (List.mem_cons_self _ _), if_true]
    exact ih (fun x hx => hw x (List.mem_cons_of_mem _ hx))

theorem collapseGo_allws_false {w : List Char}
    (hw : ∀ c ∈ w, c.isWhitespace = true) (hne : w ≠ []) :
    collapseGo w false = [' '] := by
  cases w with
  | nil => exact absurd rfl hne
  | cons c cs =>
    simp only [collapseGo, hw c (List.mem_cons_self _ _), if_true, Bool.false_eq_true,
      if_false]
    rw [collapseGo_allws_true (fun x hx => hw x (List.mem_cons_of_mem _ hx))]

theorem flagAfter_allws {w : List Char}
    (hw : ∀ c ∈ w, c.isWhitespace = true) (hne : w ≠ []) (b : Bool) :
    flagAfter w b = true := by
  induction w generalizing b with
  | nil => exact absurd rfl hne
  | cons c cs ih =>
    simp only [flagAfter]
    cases cs with
    | nil => exact hw c (List.mem_cons_self _ _)
    | cons c2 cs2 =>
      exact ih (fun x hx => hw x (List.mem_cons_of_mem _ hx)) (by simp) _

/-- Split the leading-whitespace-dropped form of a list into its fully
trimmed form followed by the trailing whitespace run. -/
theorem jsTrim_decomp (l : List Char) :
    ∃ wsRun, l.dropWhile Char.isWhitespace = jsTrim l ++ wsRun
      ∧ ∀ c ∈ wsRun, c.isWhitespace = true := by
  unfold jsTrim
  refine ⟨((l.dropWhile Char.isWhitespace).reverse.takeWhile Char.isWhitespace).reverse,
    ?_, ?_⟩
  · have key := List.takeWhile_append_dropWhile Char.isWhitespace
      (l.dropWhile Char.isWhitespace).reverse
    have key2 := congrArg List.reverse key
    rw [List.reverse_append, List.reverse_reverse] at key2
    exact key2.symm
  · intro c hc
    rw [List.mem_reverse] at hc
    exact List.mem_takeWhile_imp hc

/-- The trimmed form is empty or ends in a non-whitespace character. -/
theorem jsTrim_ends (l : List Char) :
    jsTrim l = [] ∨ ∃ t0 ce, jsTrim l = t0 ++ [ce] ∧ ce.isWhitespace = false := by
  unfold jsTrim
  cases hd : (l.dropWhile Char.isWhitespace).reverse.dropWhile Char.isWhitespace with
  | nil => exact Or.inl rfl
  | cons c rest =>
    right
    refine ⟨rest.reverse, c, by rw [List.reverse_cons], ?_⟩
    have hh := List.head?_dropWhile_not Char.isWhitespace
      (l.dropWhile Char.isWhitespace).reverse
    rw [hd] at hh
    simpa using hh

/-- Appending a whitespace-separated case-variant of the word `cusp` (as in
`" Cusp"` or `" cusp"`) to a label whose normal-form base does not already
end in a cusp suffix leaves the `rowMatchesSign` normal form unchanged. -/
theorem normSign_append_cusp_gen (a : String) (w1 w2 w3 w4 : Char)
    (hw1 : w1.toLower = 'c') (hw2 : w2.toLower = 'u')
    (hw3 : w3.toLower = 's') (hw4 : w4.toLower = 'p')
    (hwsf : ∀ c ∈ [w1, w2, w3, w4], c.isWhitespace = false)
    (hdf : ∀ c ∈ [w1, w2, w3, w4], dashFix c = c)
    (hnc : stripCuspEnd ((collapseWS (jsTrim a.data)).map dashFix)
         = (collapseWS (jsTrim a.data)).map dashFix)
    (s : String) (hs : s.data = ' ' :: [w1, w2, w3, w4]) :
    normSign (a ++ s) = normSign a := by
  have hws_space : (' ' : Char).isWhitespace = true := by decide
  have hws_w1 : w1.isWhitespace = false := hwsf w1 (by simp)
  have hws_w4 : w4.isWhitespace = false := hwsf w4 (by simp)
  have hdata : (a ++ s).data = a.data ++ (' ' :: [w1, w2, w3, w4]) := by
    rw [String.data_append, hs]
  have hrevsfx : (' ' :: [w1, w2, w3, w4]).reverse = [w4, w3, w2, w1, ' '] := by simp
  unfold normSign
  simp only [collapseWS] at hnc ⊢
  rw [hdata]
  by_cases hxe : a.data.dropWhile Char.isWhitespace = []
  · -- the label is empty or all-whitespace: both sides normalize to []
    have htrim : jsTrim a.data = [] := by
      unfold jsTrim
      rw [hxe]
      rfl
    have hd2 : (a.data ++ (' ' :: [w1, w2, w3, w4])).dropWhile Char.isWhitespace
        = [w1, w2, w3, w4] := by
      rw [List.dropWhile_append, hxe]
      simp only [List.isEmpty_nil, if_true]
      rw [List.dropWhile_cons_of_pos hws_space,
        List.dropWhile_cons_of_neg (by simp [hws_w1])]
    have htrim2 : jsTrim (a.data ++ (' ' :: [w1, w2, w3, w4])) = [w1, w2, w3, w4] := by
      unfold jsTrim
      rw [hd2]
      rw [show ([w1, w2, w3, w4] : List Char).reverse = [w4, w3, w2, w1] from by simp]
      rw [List.dropWhile_cons_of_neg (by simp [hws_w4])]
      simp
    rw [htrim, htrim2]
    rw [collapseGo_wsfree hwsf false]
    rw [show ([w1, w2, w3, w4] : List Char).map dashFix = [w1, w2, w3, w4] from by
      simp only [List.map_cons, List.map_nil]
      rw [hdf w1 (by simp), hdf w2 (by simp), hdf w3 (by simp), hdf w4 (by simp)]]
    rw [show stripCuspEnd [w1, w2, w3, w4] = [] from by
      unfold stripCuspEnd
      rw [show ([w1, w2, w3, w4] : List Char).reverse = [w4, w3, w2, w1] from by simp]
      rw [stripCuspRev_long (List.dropWhile_cons_of_neg (by simp [hws_w4]))]
      rw [if_pos ⟨hw4, hw3, hw2, hw1⟩]
      simp]
    rfl
  · -- the label has a non-whitespace character
    have hd2 : (a.data ++ (' ' :: [w1, w2, w3, w4])).dropWhile Char.isWhitespace
        = a.data.dropWhile Char.isWhitespace ++ (' ' :: [w1, w2, w3, w4]) := by
      rw [List.dropWhile_append]
      rw [if_neg (by simpa using hxe)]
    have htrim2 : jsTrim (a.data ++ (' ' :: [w1, w2, w3, w4]))
        = a.data.dropWhile Char.isWhitespace ++ (' ' :: [w1, w2, w3, w4]) := by
      unfold jsTrim
      rw [hd2]
      have hstep : ((a.data.dropWhile Char.isWhitespace
          ++ (' ' :: [w1, w2, w3, w4])).reverse).dropWhile Char.isWhitespace
          = (a.data.dropWhile Char.isWhitespace ++ (' ' :: [w1, w2, w3, w4])).reverse := by
        rw [List.reverse_append, hrevsfx]
        simp only [List.cons_append, List.nil_append]
        exact List.dropWhile_cons_of_neg (by simp [hws_w4])
      rw [hstep, List.reverse_reverse]
    obtain ⟨wsRun, hxdecomp, hwsRun⟩ := jsTrim_decomp a.data
    rcases jsTrim_ends a.data with ht0 | ⟨t0, ce, hte, hce⟩
    · exfalso
      rw [ht0, List.nil_append] at hxdecomp
      obtain ⟨x0, xr, hx⟩ := List.exists_cons_of_ne_nil hxe
      have hhead := List.head?_dropWhile_not Char.isWhitespace a.data
      rw [hx] at hhead
      have hx0ws : x0.isWhitespace = true := by
        refine hwsRun x0 ?_
        rw [← hxdecomp, hx]
        simp
      simp only [List.head?_cons] at hhead
      rw [hx0ws] at hhead
      cases hhead
    · have hflag_t : flagAfter (jsTrim a.data) false = false := by
        rw [hte, flagAfter_append]
        simp only [flagAfter]
        exact hce
      have hcoll_sfx_false : collapseGo (' ' :: [w1, w2, w3, w4]) false
          = ' ' :: [w1, w2, w3, w4] := by
        have step : collapseGo (' ' :: [w1, w2, w3, w4]) false
            = ' ' :: collapseGo [w1, w2, w3, w4] true := by
          simp [collapseGo, hws_space]
        rw [step, collapseGo_wsfree hwsf true]
      have hcoll_sfx_true : collapseGo (' ' :: [w1, w2, w3, w4]) true
          = [w1, w2, w3, w4] := by
        have step : collapseGo (' ' :: [w1, w2, w3, w4]) true
            = collapseGo [w1, w2, w3, w4] true := by
          simp [collapseGo, hws_space]
        rw [step, collapseGo_wsfree hwsf true]
      have hcoll_tail : collapseGo (wsRun ++ (' ' :: [w1, w2, w3, w4])) false
          = ' ' :: [w1, w2, w3, w4] := by
        cases hwr : wsRun with
        | nil =>
          rw [List.nil_append]
          exact hcoll_sfx_false
        | cons q qr =>
          rw [collapseGo_append]
          rw [hwr] at hwsRun
          rw [collapseGo_allws_false hwsRun (by simp)]
          rw [flagAfter_allws hwsRun (by simp)]
          rw [hcoll_sfx_true]
          rfl
      have hcoll2 : collapseGo (jsTrim (a.data ++ (' ' :: [w1, w2, w3, w4]))) false
          = collapseGo (jsTrim a.data) false ++ (' ' :: [w1, w2, w3, w4]) := by
        rw [htrim2, hxdecomp, List.append_assoc, collapseGo_append, hflag_t, hcoll_tail]
      have hsfx_map : (' ' :: [w1, w2, w3, w4]).map dashFix = ' ' :: [w1, w2, w3, w4] := by
        simp only [List.map_cons, List.map_nil]
        rw [show dashFix ' ' = ' ' from by decide, hdf w1 (by simp), hdf w2 (by simp),
          hdf w3 (by simp), hdf w4 (by simp)]
      have hu_tail : (collapseGo (jsTrim a.data) false).map dashFix
          = ((collapseGo t0 false).map dashFix) ++ [dashFix ce] := by
        rw [hte, collapseGo_append]
        rw [show collapseGo [ce] (flagAfter t0 false) = [ce] from
          collapseGo_wsfree (by
            intro c hc
            simp only [List.mem_singleton] at hc
            subst hc
            exact hce) _]
        rw [List.map_append]
        rfl
      have hdrop_u : ((collapseGo (jsTrim a.data) false).map dashFix).reverse.dropWhile
            Char.isWhitespace
          = ((collapseGo (jsTrim a.data) false).map dashFix).reverse := by
        rw [hu_tail, List.reverse_append]
        simp only [List.reverse_cons, List.reverse_nil, List.nil_append,
          List.singleton_append]
        exact List.dropWhile_cons_of_neg (by simp [dashFix_ws ce, hce])
      have hstrip2 : stripCuspEnd ((collapseGo (jsTrim a.data) false).map dashFix
            ++ (' ' :: [w1, w2, w3, w4]))
          = (collapseGo (jsTrim a.data) false).map dashFix := by
        unfold stripCuspEnd
        have hdw : (((collapseGo (jsTrim a.data) false).map dashFix
            ++ (' ' :: [w1, w2, w3, w4])).reverse).dropWhile Char.isWhitespace
            = w4 :: w3 :: w2 :: w1 :: (' ' ::
                ((collapseGo (jsTrim a.data) false).map dashFix).reverse) := by
          rw [List.reverse_append, hrevsfx]
          simp only [List.cons_append, List.nil_append]
          exact List.dropWhile_cons_of_neg (by simp [hws_w4])
        rw [stripCuspRev_long hdw]
        rw [if_pos ⟨hw4, hw3, hw2, hw1⟩]
        rw [List.dropWhile_cons_of_pos hws_space, hdrop_u, List.reverse_reverse]
      rw [hcoll2, List.map_append, hsfx_map, hstrip2, hnc]

theorem string_eq_empty_iff_data {s : String} : s = "" ↔ s.data = [] := by
  constructor
  · intro h
    rw [h]
  · intro h
    cases s with
    | mk d =>
      have hd : d = [] := h
      subst hd
      decide

-- ===========================================================================
-- C3: the equivalence predicate
-- ===========================================================================

/-- C3 counterexample: `labelsEquivalent` (`rowMatchesSign`) returns false on
two empty labels — the falsy-input guard defeats reflexivity on the empty
label — and appending a further trailing `" Cusp"` to a label that already
carries the suffix changes the comparison result (only one trailing cusp
token is stripped), so the claimed invariances do not hold unconditionally
over all subject labels. -/
theorem rowMatchesSign_claim_counterexample :
    rowMatchesSign "" "" = false
    ∧ rowMatchesSign "Aries Cusp" "Aries Cusp" = true
    ∧ rowMatchesSign ("Aries Cusp" ++ " Cusp") "Aries Cusp" = false := by
  refine ⟨by decide, by decide, by decide⟩

/-- C3 (amended): `rowMatchesSign` is reflexive on every nonempty label and
symmetric on all labels; its result is invariant under letter-case changes
and under dash-style changes of either argument, invariant under whitespace
trimming/collapsing between nonempty labels, and invariant under appending
(equivalently, removing) one trailing `" Cusp"`/`" cusp"` suffix on a
nonempty label whose normal-form base does not already end in a cusp
suffix. -/
theorem rowMatchesSign_equivalence_amended :
    (∀ a : String, a ≠ "" → rowMatchesSign a a = true)
    ∧ (∀ a b : String, rowMatchesSign a b = rowMatchesSign b a)
    ∧ (∀ a1 a2 b : String, lowerAll a1.data = lowerAll a2.data →
        rowMatchesSign a1 b = rowMatchesSign a2 b)
    ∧ (∀ a1 a2 b : String, a1.data.map dashFix = a2.data.map dashFix →
        rowMatchesSign a1 b = rowMatchesSign a2 b)
    ∧ (∀ a1 a2 b : String, a1 ≠ "" → a2 ≠ "" →
        collapseWS (jsTrim a1.data) = collapseWS (jsTrim a2.data) →
        rowMatchesSign a1 b = rowMatchesSign a2 b)
    ∧ (∀ a b : String, a ≠ "" →
        stripCuspEnd ((collapseWS (jsTrim a.data)).map dashFix)
          = (collapseWS (jsTrim a.data)).map dashFix →
        rowMatchesSign (a ++ " Cusp") b = rowMatchesSign a b
        ∧ rowMatchesSign (a ++ " cusp") b = rowMatchesSign a b) := by
  have happend_ne : ∀ (a s : String), s.data ≠ [] → a ++ s ≠ "" := by
    intro a s hsne hc
    rw [string_eq_empty_iff_data, String.data_append] at hc
    exact hsne (List.append_eq_nil.mp hc).2
  refine ⟨?_, ?_, ?_, ?_, ?_, ?_⟩
  · intro a ha
    unfold rowMatchesSign
    rw [if_neg (by simp [ha])]
    simp
  · intro a b
    unfold rowMatchesSign
    by_cases hg : a = "" ∨ b = ""
    · rw [if_pos hg, if_pos (Or.symm hg)]
    · rw [if_neg hg, if_neg (fun hc => hg (Or.symm hc))]
      rw [decide_eq_decide]
      exact eq_comm
  · intro a1 a2 b h
    refine rowMatchesSign_congr_left ?_ (normSign_congr_lower h) b
    rw [string_eq_empty_iff_data, string_eq_empty_iff_data]
    constructor
    · intro he
      have : lowerAll a1.data = [] := by rw [he]; rfl
      rw [h] at this
      simpa [lowerAll] using this
    · intro he
      have : lowerAll a2.data = [] := by rw [he]; rfl
      rw [← h] at this
      simpa [lowerAll] using this
  · intro a1 a2 b h
    refine rowMatchesSign_congr_left ?_ (normSign_congr_dash h) b
    rw [string_eq_empty_iff_data, string_eq_empty_iff_data]
    constructor
    · intro he
      have : a1.data.map dashFix = [] := by rw [he]; rfl
      rw [h] at this
      simpa using this
    · intro he
      have : a2.data.map dashFix = [] := by rw [he]; rfl
      rw [← h] at this
      simpa using this
  · intro a1 a2 b h1 h2 h
    exact rowMatchesSign_congr_left (iff_of_false h1 h2) (normSign_congr_ws h) b
  · intro a b ha hnc
    constructor
    · refine rowMatchesSign_congr_left
        (iff_of_false (happend_ne a " Cusp" (by decide)) ha) ?_ b
      exact normSign_append_cusp_gen a 'C' 'u' 's' 'p' (by decide) (by decide)
        (by decide) (by decide) (by decide) (by decide) hnc " Cusp" rfl
    · refine rowMatchesSign_congr_left
        (iff_of_false (happend_ne a " cusp" (by decide)) ha) ?_ b
      exact normSign_append_cusp_gen a 'c' 'u' 's' 'p' (by decide) (by decide)
        (by decide) (by decide) (by decide) (by decide) hnc " cusp" rfl

/-- Concrete instances of `rowMatchesSign_equivalence_amended`. -/
theorem rowMatchesSign_equivalence_amended_witness :
    rowMatchesSign "Aries" "Aries" = true
    ∧ rowMatchesSign "ARIES" "Taurus" = rowMatchesSign "aries" "Taurus"
    ∧ rowMatchesSign "Aries–Taurus" "x" = rowMatchesSign "Aries—Taurus" "x"
    ∧ rowMatchesSign " Aries  Taurus " "y" = rowMatchesSign "Aries Taurus" "y"
    ∧ rowMatchesSign ("Aries" ++ " Cusp") "aries" = rowMatchesSign "Aries" "aries" :=
  ⟨rowMatchesSign_equivalence_amended.1 "Aries" (by decide),
   rowMatchesSign_equivalence_amended.2.2.1 "ARIES" "aries" "Taurus" (by decide),
   rowMatchesSign_equivalence_amended.2.2.2.1 "Aries–Taurus" "Aries—Taurus" "x" (by decide),
   rowMatchesSign_equivalence_amended.2.2.2.2.1 " Aries  Taurus " "Aries Taurus" "y"
     (by decide) (by decide) (by decide),
   (rowMatchesSign_equivalence_amended.2.2.2.2.2 "Aries" "aries"
     (by decide) (by decide)).1⟩
